import Mathlib

/-
  Formal model of the GDAL dataset pool and proxy dataset
  (frmts/gdalproxypool.cpp of the gdal repository).

  The intrusive doubly-linked LRU list of the pool is represented as a Lean
  list ordered from firstEntry (most recently used, head) to lastEntry
  (least recently used, last). The backend opener (GDALDataset::Open), which
  is external to the pool, is passed in as the result it would produce for
  the one open performed by _RefDataset: `none` for a failed open, or
  `some (handle, estimatedRAMUsage)` on success. Calls to GDALClose are
  recorded as CloseEvent values, each tagging the handle with the
  thread-local responsible PID in effect at the moment of the close and the
  PID stored in the closed entry. The thread-local responsible PID
  (GDALGet/SetResponsiblePIDForCurrentThread) is threaded through explicitly
  as a `tls` value.
-/

/-- Mirror of struct GDALProxyPoolCacheEntry. `poDS` is the optional backend
dataset handle (a nullable pointer in the source, modelled as an optional
handle id); `pszFileNameAndOpenOptions` and `pszOwner` are nullable strings.
The `prev`/`next` pointers of the source are represented by the position of
the entry in the pool's entry list. -/
structure CacheEntry where
  responsiblePID : Int
  pszFileNameAndOpenOptions : Option String
  pszOwner : Option String
  poDS : Option Nat
  nRAMUsage : Int
  refCount : Int
deriving DecidableEq, Inhabited

/-- Record of one GDALClose performed by the pool: the handle closed, the
thread-local responsible PID at the moment GDALClose ran, and the
responsiblePID recorded in the closed cache entry at open time. -/
structure CloseEvent where
  poDS : Nat
  closerPID : Int
  openerPID : Int
deriving DecidableEq

/-- Mirror of the private state of class GDALDatasetPool. The list `entries`
runs from firstEntry (head) to lastEntry. -/
structure PoolState where
  bInDestruction : Bool
  maxSize : Nat
  currentSize : Nat
  nMaxRAMUsage : Int
  nRAMUsage : Int
  entries : List CacheEntry
deriving DecidableEq

/-- Pool with no entries, as built by the GDALDatasetPool constructor. -/
def emptyPool (maxSize : Nat) (nMaxRAMUsage : Int) : PoolState :=
  { bInDestruction := false, maxSize := maxSize, currentSize := 0,
    nMaxRAMUsage := nMaxRAMUsage, nRAMUsage := 0, entries := [] }

/-- Mirror of GetFilenameAndOpenOptions: the cache key is the descriptor
followed by each open option, separated by the two characters vertical bar
vertical bar. -/
def GetFilenameAndOpenOptions (pszFileName : String)
    (papszOpenOptions : List String) : String :=
  papszOpenOptions.foldl (fun s o => s ++ "||" ++ o) pszFileName

/-- Index of the first element satisfying p, scanning from the head. -/
def firstMatchIdx {α : Type} (p : α → Bool) : List α → Option Nat
  | [] => none
  | x :: xs => if p x then some 0 else (firstMatchIdx p xs).map (· + 1)

/-- Index of the last element satisfying p. This mirrors the candidate
selection of the EvictEntryWithZeroRefCount lambda, which walks the list
from firstEntry to lastEntry and keeps overwriting `candidate`, so the
candidate retained is the one closest to lastEntry, i.e. the least recently
used one. -/
def lastMatchIdx {α : Type} (p : α → Bool) : List α → Option Nat
  | [] => none
  | x :: xs =>
    match lastMatchIdx p xs with
    | some i => some (i + 1)
    | none => if p x then some 0 else none

/-- Owner-tag comparison used both by the _RefDataset matcher and by
_CloseDatasetIfZeroRefCount: both absent, or both present and string-equal. -/
def ownerMatches : Option String → Option String → Bool
  | none, none => true
  | some a, some b => a == b
  | _, _ => false

/-- Key comparison of the lookup loops: the stored key pointer is non-null
and the stored string is byte-equal to the request key. -/
def keyMatch (osFilenameAndOO : String) (e : CacheEntry) : Bool :=
  match e.pszFileNameAndOpenOptions with
  | some k => k == osFilenameAndOO
  | none => false

/-- Matching condition of the lookup loop of GDALDatasetPool::_RefDataset:
refCount is not the in-progress sentinel -1, the stored key is present and
byte-equal to the request key, and either the request is shared with equal
opener PID and owner tag, or the request is exclusive and the entry is
idle. -/
def entryMatches (osFilenameAndOO : String) (bShared : Bool)
    (responsiblePID : Int) (pszOwner : Option String) (e : CacheEntry) : Bool :=
  decide (0 ≤ e.refCount) &&
  keyMatch osFilenameAndOO e &&
  ((bShared && e.responsiblePID == responsiblePID &&
    ownerMatches e.pszOwner pszOwner) ||
   (!bShared && e.refCount == 0))

/-- Candidate filter of the EvictEntryWithZeroRefCount lambda: refCount 0,
and when evicting for RAM pressure (evictEntryWithOpenedDataset = true) the
entry must also carry a positive RAM estimate. -/
def evictPred (evictEntryWithOpenedDataset : Bool) (e : CacheEntry) : Bool :=
  e.refCount == 0 &&
  (!evictEntryWithOpenedDataset || decide (0 < e.nRAMUsage))

/-- Mirror of the EvictEntryWithZeroRefCount lambda in _RefDataset.
The last refCount-zero candidate (LRU) is chosen; its RAM estimate is
removed from the pool accumulator and zeroed, its key is cleared; if it
holds a handle, the thread-local responsible PID is set to the entry's
recorded opener PID, GDALClose runs, and the PID saved at the start of
_RefDataset is restored; the owner tag is cleared. When recycling
(evictEntryWithOpenedDataset = false) the slot is moved to the head of the
list; under RAM pressure it stays in place. -/
def evictEntryWithZeroRefCount (evictEntryWithOpenedDataset : Bool)
    (responsiblePID : Int) (entries : List CacheEntry) (nRAMUsage : Int)
    (tls : Int) : Option (List CacheEntry × Int × List CloseEvent × Int) :=
  match lastMatchIdx (evictPred evictEntryWithOpenedDataset) entries with
  | none => none
  | some i =>
    let candidate := entries.getD i default
    let nRAMUsage' := nRAMUsage - candidate.nRAMUsage
    let c1 : CacheEntry :=
      { candidate with nRAMUsage := 0, pszFileNameAndOpenOptions := none }
    let closeStep : CacheEntry × List CloseEvent × Int :=
      match c1.poDS with
      | some h =>
        let tlsAtClose := candidate.responsiblePID
        ({ c1 with poDS := none },
         [{ poDS := h, closerPID := tlsAtClose,
            openerPID := candidate.responsiblePID }],
         responsiblePID)
      | none => (c1, [], tls)
    let c2 : CacheEntry := { closeStep.1 with pszOwner := none }
    let entries' :=
      if evictEntryWithOpenedDataset then entries.set i c2
      else c2 :: entries.eraseIdx i
    some (entries', nRAMUsage', closeStep.2.1, closeStep.2.2)

/-- Return protocol of _RefDataset: a non-null cache entry (the head of the
resulting entry list), with didOpen recording whether the backend opener was
invoked, or one of the null returns. -/
inductive AcquireRet where
  | entry (didOpen : Bool)
  | nullNoForce
  | nullExhausted
  | nullInDestruction
deriving DecidableEq

/-- Result of _RefDataset: the pool state after the call, the GDALClose
events performed, the thread-local responsible PID after the call, and the
return value. -/
structure RefOut where
  st : PoolState
  closes : List CloseEvent
  tls : Int
  ret : AcquireRet
deriving DecidableEq

/-- Mirror of the RAM-pressure while loop at the end of _RefDataset:
while nRAMUsage exceeds nMaxRAMUsage and is not reduced to the RAM estimate
of the just-opened entry (curRam), evict (close-in-place) the LRU idle entry
with a positive RAM estimate. The loop runs at most once per entry holding
positive RAM, so fuel equal to the list length always suffices. -/
def ramEvictLoop (fuel : Nat) (responsiblePID : Int) (curRam : Int)
    (st : PoolState) (tls : Int) : PoolState × List CloseEvent × Int :=
  match fuel with
  | 0 => (st, [], tls)
  | fuel + 1 =>
    if st.nMaxRAMUsage < st.nRAMUsage ∧ st.nRAMUsage ≠ curRam then
      match evictEntryWithZeroRefCount true responsiblePID st.entries
          st.nRAMUsage tls with
      | none => (st, [], tls)
      | some (entries1, ram1, evs1, tls1) =>
        let out :=
          ramEvictLoop fuel responsiblePID curRam
            { st with entries := entries1, nRAMUsage := ram1 } tls1
        (out.1, evs1 ++ out.2.1, out.2.2)
    else (st, [], tls)

/-- Slot acquisition step of _RefDataset (the code run when no entry
matched and bForceOpen is set): when the pool is at capacity, recycle the
LRU idle entry via EvictEntryWithZeroRefCount(false) (failing when there is
none); otherwise allocate a zeroed entry and prepend it, growing
currentSize. On success the slot to fill is the head of the entry list. -/
def acquireSlot (st : PoolState) (responsiblePID : Int) (tls : Int) :
    Option (PoolState × List CloseEvent × Int) :=
  if st.currentSize = st.maxSize then
    match evictEntryWithZeroRefCount false responsiblePID st.entries
        st.nRAMUsage tls with
    | none => none
    | some (entries1, ram1, evs1, tls1) =>
      some ({ st with entries := entries1, nRAMUsage := ram1 }, evs1, tls1)
  else
    some ({ st with
              entries :=
                { responsiblePID := 0,
                  pszFileNameAndOpenOptions := none,
                  pszOwner := none, poDS := none, nRAMUsage := 0,
                  refCount := 0 } :: st.entries,
              currentSize := st.currentSize + 1 },
          [], tls)

/-- Install-and-open step of _RefDataset: fill the head slot with the key,
owner and opener PID and the sentinel refCount -1, run the backend open
(its outcome is openResult), store the handle and refCount 1, account the
RAM estimate on success, and run the RAM-pressure eviction loop. -/
def openIntoSlot (st1 : PoolState) (osFilenameAndOO : String)
    (pszOwner : Option String) (responsiblePID : Int)
    (openResult : Option (Nat × Int)) (evs1 : List CloseEvent) (tls1 : Int) :
    RefOut :=
  match st1.entries with
  | [] => ⟨st1, evs1, tls1, .nullExhausted⟩
  | cur0 :: rest =>
    let cur1 : CacheEntry :=
      { cur0 with
          pszFileNameAndOpenOptions := some osFilenameAndOO,
          pszOwner := pszOwner, responsiblePID := responsiblePID,
          refCount := -1, nRAMUsage := 0 }
    match openResult with
    | none =>
      ⟨{ st1 with entries :=
           { cur1 with poDS := none, refCount := 1 } :: rest },
       evs1, tls1, .entry true⟩
    | some (h, ramEst) =>
      let r := max 0 ramEst
      let cur2 : CacheEntry :=
        { cur1 with poDS := some h, refCount := 1, nRAMUsage := r }
      let st2 : PoolState :=
        { st1 with entries := cur2 :: rest,
                   nRAMUsage := st1.nRAMUsage + r }
      if 0 < st2.nMaxRAMUsage ∧ 0 < r then
        let out :=
          ramEvictLoop st2.entries.length responsiblePID r st2 tls1
        ⟨out.1, evs1 ++ out.2.1, out.2.2, .entry true⟩
      else
        ⟨st2, evs1, tls1, .entry true⟩

/-- Mirror of GDALDatasetPool::_RefDataset. `openResult` stands for the
outcome of the GDALDataset::Open call performed with the mutex released:
none when the backend open fails, some (handle, estimatedRAMUsage) on
success (the source then clamps the estimate to be non-negative). -/
def refDataset (st : PoolState) (pszFileName : String)
    (papszOpenOptions : List String) (bShared : Bool) (bForceOpen : Bool)
    (pszOwner : Option String) (responsiblePID : Int)
    (openResult : Option (Nat × Int)) (tls : Int) : RefOut :=
  if st.bInDestruction then ⟨st, [], tls, .nullInDestruction⟩
  else
    let osFilenameAndOO := GetFilenameAndOpenOptions pszFileName papszOpenOptions
    match firstMatchIdx
        (entryMatches osFilenameAndOO bShared responsiblePID pszOwner)
        st.entries with
    | some i =>
      let cur := st.entries.getD i default
      ⟨{ st with entries :=
           { cur with refCount := cur.refCount + 1 } :: st.entries.eraseIdx i },
       [], tls, .entry false⟩
    | none =>
      if !bForceOpen then ⟨st, [], tls, .nullNoForce⟩
      else
        match acquireSlot st responsiblePID tls with
        | none => ⟨st, [], tls, .nullExhausted⟩
        | some (st1, evs1, tls1) =>
          openIntoSlot st1 osFilenameAndOO pszOwner responsiblePID openResult
            evs1 tls1

/-- Mirror of GDALDatasetPool::UnrefDataset: a plain decrement of the
entry's refCount, under the pool mutex; nothing else happens. -/
def unrefDataset (cacheEntry : CacheEntry) : CacheEntry :=
  { cacheEntry with refCount := cacheEntry.refCount - 1 }

/-- UnrefDataset applied to the entry at position i of the pool list (the
source works through a pointer to the entry; position in the list identifies
the entry in this model). -/
def unrefAt (st : PoolState) (i : Nat) : PoolState :=
  { st with entries := st.entries.set i (unrefDataset (st.entries.getD i default)) }

/-- Matching condition of _CloseDatasetIfZeroRefCount: idle entry with the
requested key and owner tag whose handle is present. -/
def closeIfIdlePred (osFilenameAndOO : String) (pszOwner : Option String)
    (e : CacheEntry) : Bool :=
  e.refCount == 0 &&
  keyMatch osFilenameAndOO e &&
  ownerMatches e.pszOwner pszOwner &&
  e.poDS.isSome

/-- Mirror of GDALDatasetPool::_CloseDatasetIfZeroRefCount: find the first
idle entry with this key and owner and an open handle; close the handle
pretending to be the opener thread (set thread-local PID to the entry's
recorded PID, run GDALClose, restore the PID saved at function entry),
clearing handle, key, owner and RAM accounting but keeping the slot. -/
def closeDatasetIfZeroRefCount (st : PoolState) (pszFileName : String)
    (papszOpenOptions : List String) (pszOwner : Option String) (tls : Int) :
    PoolState × List CloseEvent × Int :=
  if st.bInDestruction then (st, [], tls)
  else
    let osFilenameAndOO := GetFilenameAndOpenOptions pszFileName papszOpenOptions
    match firstMatchIdx (closeIfIdlePred osFilenameAndOO pszOwner) st.entries with
    | none => (st, [], tls)
    | some i =>
      let cur := st.entries.getD i default
      match cur.poDS with
      | none => (st, [], tls)
      | some h =>
        let tlsAtClose := cur.responsiblePID
        let cur' : CacheEntry :=
          { cur with nRAMUsage := 0, poDS := none,
                     pszFileNameAndOpenOptions := none, pszOwner := none }
        ({ st with entries := st.entries.set i cur',
                   nRAMUsage := st.nRAMUsage - cur.nRAMUsage },
         [{ poDS := h, closerPID := tlsAtClose, openerPID := cur.responsiblePID }],
         tls)

/-- State of the pool singleton (the static `singleton` pointer plus its
refCount field): none when the singleton does not exist. -/
structure PoolSingletonState where
  refCount : Int
  pool : PoolState
deriving DecidableEq

/-- Mirror of GDALDatasetPool::Ref. The singleton is lazily constructed in
every case; the refCount is incremented only when the thread-local
refCountOfDisabledRefCount suppression counter is zero. maxSizeCfg and
maxRamCfg stand for the configured pool capacity and RAM budget. -/
def poolRef (refCountOfDisabledRefCount : Int) (maxSizeCfg : Nat)
    (maxRamCfg : Int) :
    Option PoolSingletonState → Option PoolSingletonState
  | none =>
    let s : PoolSingletonState :=
      { refCount := 0, pool := emptyPool maxSizeCfg maxRamCfg }
    some (if refCountOfDisabledRefCount = 0 then
            { s with refCount := s.refCount + 1 } else s)
  | some s =>
    some (if refCountOfDisabledRefCount = 0 then
            { s with refCount := s.refCount + 1 } else s)

/-- Mirror of GDALDatasetPool::Unref: when the suppression counter is zero,
decrement the singleton refCount and destroy the singleton when it reaches
zero; when the counter is non-zero, do nothing. -/
def poolUnref (refCountOfDisabledRefCount : Int) :
    Option PoolSingletonState → Option PoolSingletonState
  | none => none
  | some s =>
    if refCountOfDisabledRefCount = 0 then
      let s' : PoolSingletonState := { s with refCount := s.refCount - 1 }
      if s'.refCount = 0 then none else some s'
    else some s

/-- Mirror of struct GetMetadataElt: one element of the proxy dataset's
metadata-domain cache. -/
structure GetMetadataElt where
  pszDomain : Option String
  papszMetadata : Option (List String)
deriving DecidableEq

/-- Mirror of struct GetMetadataItemElt: one element of the proxy dataset's
(name, domain) metadata-item cache. -/
structure GetMetadataItemElt where
  pszName : Option String
  pszDomain : Option String
  pszMetadataItem : Option String
deriving DecidableEq

/-- Modelled from the spec: CPLHashSetInsert on the metadata-domain cache
(cpl_hash_set.cpp is not among the sources; the spec describes the cache as
a map from domain to string list, so inserting an element replaces any
element with an equal domain). -/
def metadataSetInsert (s : List GetMetadataElt) (elt : GetMetadataElt) :
    List GetMetadataElt :=
  elt :: s.filter (fun e => !(e.pszDomain == elt.pszDomain))

/-- Modelled from the spec: CPLHashSetInsert on the (name, domain)
metadata-item cache (cpl_hash_set.cpp is not among the sources; the spec
describes this cache as a map keyed by (name, domain)). -/
def metadataItemSetInsert (s : List GetMetadataItemElt)
    (elt : GetMetadataItemElt) : List GetMetadataItemElt :=
  elt :: s.filter (fun e =>
    !(e.pszName == elt.pszName && e.pszDomain == elt.pszDomain))

/-- Lookup in the metadata-domain cache, for stating what the cache stores. -/
def metadataSetLookup (s : List GetMetadataElt) (d : Option String) :
    Option (Option (List String)) :=
  (s.find? (fun e => e.pszDomain == d)).map (·.papszMetadata)

/-- Lookup in the metadata-item cache. -/
def metadataItemSetLookup (s : List GetMetadataItemElt)
    (n d : Option String) : Option (Option String) :=
  (s.find? (fun e => e.pszName == n && e.pszDomain == d)).map
    (·.pszMetadataItem)

/-- Mirror of GDALProxyPoolDataset::GetMetadata. `poUnderlyingDataset` is
the result of RefUnderlyingDataset: none when the pool could not provide a
handle, otherwise the backend's current GetMetadata function. The source
queries the backend, duplicates the returned string list into a fresh cache
element, inserts it into the hash set, and returns the duplicate; it never
looks the domain up in the cache before querying. -/
def proxyGetMetadata (metadataSet : List GetMetadataElt)
    (poUnderlyingDataset : Option (Option String → Option (List String)))
    (pszDomain : Option String) :
    List GetMetadataElt × Option (List String) :=
  match poUnderlyingDataset with
  | none => (metadataSet, none)
  | some getMeta =>
    let papszUnderlyingMetadata := getMeta pszDomain
    let pElt : GetMetadataElt :=
      { pszDomain := pszDomain, papszMetadata := papszUnderlyingMetadata }
    (metadataSetInsert metadataSet pElt, pElt.papszMetadata)

/-- Mirror of GDALProxyPoolDataset::GetMetadataItem; same shape as
proxyGetMetadata, keyed by (name, domain). -/
def proxyGetMetadataItem (metadataItemSet : List GetMetadataItemElt)
    (poUnderlyingDataset :
      Option (Option String → Option String → Option String))
    (pszName pszDomain : Option String) :
    List GetMetadataItemElt × Option String :=
  match poUnderlyingDataset with
  | none => (metadataItemSet, none)
  | some getMetaItem =>
    let pszUnderlyingMetadataItem := getMetaItem pszName pszDomain
    let pElt : GetMetadataItemElt :=
      { pszName := pszName, pszDomain := pszDomain,
        pszMetadataItem := pszUnderlyingMetadataItem }
    (metadataItemSetInsert metadataItemSet pElt, pElt.pszMetadataItem)

/-- Sum of the RAM estimates over the entries of the list. -/
def sumRAM (l : List CacheEntry) : Int := (l.map (·.nRAMUsage)).sum

/-- Per-entry RAM sanity: estimates are non-negative and an entry without a
handle carries no RAM estimate. -/
def entryRamOK (e : CacheEntry) : Prop :=
  0 ≤ e.nRAMUsage ∧ (e.poDS = none → e.nRAMUsage = 0)

/-- RAM accounting invariant at the entry-list level: the pool accumulator
equals the sum of the per-entry estimates, and each entry is RAM-sane. -/
def RamInv (entries : List CacheEntry) (nRAMUsage : Int) : Prop :=
  nRAMUsage = sumRAM entries ∧ ∀ e ∈ entries, entryRamOK e

/-- RAM accounting invariant of a pool state. -/
def RamWF (st : PoolState) : Prop := RamInv st.entries st.nRAMUsage

/-- Number of entries carrying a positive RAM estimate; the RAM-pressure
loop strictly decreases it, which bounds its iteration count. -/
def countPos (l : List CacheEntry) : Nat :=
  (l.filter (fun e => decide (0 < e.nRAMUsage))).length

/-- The first-match scan returns none exactly when no element satisfies the
predicate. -/
theorem firstMatchIdx_eq_none {α : Type} (p : α → Bool) :
    ∀ l : List α, firstMatchIdx p l = none ↔ ∀ e ∈ l, p e = false := by
  intro l
  induction l with
  | nil => simp [firstMatchIdx]
  | cons x xs ih =>
    by_cases hx : p x
    · simp [firstMatchIdx, hx]
    · have hstep : firstMatchIdx p (x :: xs) =
          (firstMatchIdx p xs).map (· + 1) := if_neg hx
      rw [hstep, Option.map_eq_none', ih]
      have hx' : p x = false := by simpa using hx
      constructor
      · intro hall e he
        rcases List.mem_cons.mp he with rfl | he
        · exact hx'
        · exact hall e he
      · intro hall e he
        exact hall e (List.mem_cons_of_mem _ he)

/-- A successful first-match scan returns an in-range index whose element
satisfies the predicate. -/
theorem firstMatchIdx_eq_some {α : Type} (p : α → Bool) (d : α) :
    ∀ (l : List α) (i : Nat), firstMatchIdx p l = some i →
      i < l.length ∧ p (l.getD i d) = true := by
  intro l
  induction l with
  | nil => intro i h; simp [firstMatchIdx] at h
  | cons x xs ih =>
    intro i h
    by_cases hx : p x
    · simp [firstMatchIdx, hx] at h
      subst h
      simpa using hx
    · have hstep : firstMatchIdx p (x :: xs) =
          (firstMatchIdx p xs).map (· + 1) := if_neg hx
      rw [hstep, Option.map_eq_some'] at h
      obtain ⟨j, hj, rfl⟩ := h
      obtain ⟨hlt, hp⟩ := ih j hj
      constructor
      · simpa using Nat.succ_lt_succ hlt
      · simpa using hp

/-- The last-match scan returns none exactly when no element satisfies the
predicate. -/
theorem lastMatchIdx_eq_none {α : Type} (p : α → Bool) :
    ∀ l : List α, lastMatchIdx p l = none ↔ ∀ e ∈ l, p e = false := by
  intro l
  induction l with
  | nil => simp [lastMatchIdx]
  | cons x xs ih =>
    simp only [lastMatchIdx, List.mem_cons]
    cases htl : lastMatchIdx p xs with
    | some j =>
      simp only []
      constructor
      · intro h; exact absurd h (by simp)
      · intro hall
        have : ∀ e ∈ xs, p e = false := fun e he => hall e (Or.inr he)
        rw [ih.mpr this] at htl
        exact absurd htl (by simp)
    | none =>
      by_cases hx : p x
      · simp only [hx, if_pos]
        constructor
        · intro h; exact absurd h (by simp)
        · intro hall
          have := hall x (Or.inl rfl)
          simp [hx] at this
      · simp only [hx, Bool.false_eq_true, if_neg]
        constructor
        · intro _ e he
          rcases he with rfl | he
          · simpa using hx
          · exact (ih.mp htl) e he
        · intro _; rfl

/-- A successful last-match scan returns an in-range index whose element
satisfies the predicate, and no later (closer to the tail) element does:
the chosen element is the least recently used matching entry. -/
theorem lastMatchIdx_eq_some {α : Type} (p : α → Bool) (d : α) :
    ∀ (l : List α) (i : Nat), lastMatchIdx p l = some i →
      i < l.length ∧ p (l.getD i d) = true ∧
        ∀ j, i < j → j < l.length → p (l.getD j d) = false := by
  intro l
  induction l with
  | nil => intro i h; simp [lastMatchIdx] at h
  | cons x xs ih =>
    intro i h
    simp only [lastMatchIdx] at h
    cases htl : lastMatchIdx p xs with
    | some j =>
      rw [htl] at h
      simp only [Option.some.injEq] at h
      subst h
      obtain ⟨hlt, hp, hlast⟩ := ih j htl
      refine ⟨by simpa using Nat.succ_lt_succ hlt, by simpa using hp, ?_⟩
      intro k hk hklen
      cases k with
      | zero => omega
      | succ k =>
        have : j < k := by omega
        have hklen' : k < xs.length := by simpa using hklen
        simpa using hlast k this hklen'
    | none =>
      rw [htl] at h
      by_cases hx : p x
      · simp only [hx, if_pos, Option.some.injEq] at h
        subst h
        refine ⟨by simp, by simpa using hx, ?_⟩
        intro k hk hklen
        cases k with
        | zero => omega
        | succ k =>
          have hklen' : k < xs.length := by simpa using hklen
          have := (lastMatchIdx_eq_none p xs).mp htl
          have hmem : xs.getD k d ∈ xs := by
            have := List.getD_eq_getElem xs d hklen'
            rw [this]
            exact List.getElem_mem hklen'
          simpa using this _ hmem
      · simp [hx] at h

/-- Sum of RAM estimates over a cons. -/
theorem sumRAM_cons (e : CacheEntry) (l : List CacheEntry) :
    sumRAM (e :: l) = e.nRAMUsage + sumRAM l := by
  simp [sumRAM]

/-- Updating the entry at an in-range index shifts the RAM sum by the
difference of the estimates. -/
theorem sumRAM_set :
    ∀ (l : List CacheEntry) (i : Nat) (c : CacheEntry), i < l.length →
      sumRAM (l.set i c) =
        sumRAM l - (l.getD i default).nRAMUsage + c.nRAMUsage := by
  intro l
  induction l with
  | nil => intro i c h; simp at h
  | cons x xs ih =>
    intro i c h
    cases i with
    | zero =>
      simp only [List.set, List.getD_cons_zero, sumRAM_cons]
      ring
    | succ i =>
      have h' : i < xs.length := by simpa using h
      simp only [List.set, List.getD_cons_succ, sumRAM_cons, ih i c h']
      ring

/-- Removing the entry at an in-range index removes its estimate from the
RAM sum. -/
theorem sumRAM_eraseIdx :
    ∀ (l : List CacheEntry) (i : Nat), i < l.length →
      sumRAM (l.eraseIdx i) = sumRAM l - (l.getD i default).nRAMUsage := by
  intro l
  induction l with
  | nil => intro i h; simp at h
  | cons x xs ih =>
    intro i h
    cases i with
    | zero =>
      simp only [List.eraseIdx, List.getD_cons_zero, sumRAM_cons]
      ring
    | succ i =>
      have h' : i < xs.length := by simpa using h
      simp only [List.eraseIdx, List.getD_cons_succ, sumRAM_cons, ih i h']
      ring

/-- The RAM sum of a list of entries with non-negative estimates is
non-negative. -/
theorem sumRAM_nonneg :
    ∀ l : List CacheEntry, (∀ e ∈ l, 0 ≤ e.nRAMUsage) → 0 ≤ sumRAM l := by
  intro l
  induction l with
  | nil => intro _; simp [sumRAM]
  | cons x xs ih =>
    intro h
    rw [sumRAM_cons]
    have hx := h x (by simp)
    have hxs := ih (fun e he => h e (List.mem_cons_of_mem _ he))
    omega

/-- When non-negative estimates sum to zero, every estimate is zero. -/
theorem sumRAM_eq_zero :
    ∀ l : List CacheEntry, (∀ e ∈ l, 0 ≤ e.nRAMUsage) → sumRAM l = 0 →
      ∀ e ∈ l, e.nRAMUsage = 0 := by
  intro l
  induction l with
  | nil => simp
  | cons x xs ih =>
    intro hpos hsum e he
    rw [sumRAM_cons] at hsum
    have hx := hpos x (by simp)
    have hxs := sumRAM_nonneg xs (fun e he => hpos e (List.mem_cons_of_mem _ he))
    rcases List.mem_cons.mp he with rfl | he
    · omega
    · exact ih (fun e he => hpos e (List.mem_cons_of_mem _ he)) (by omega) e he

/-- Shape of an evicted slot: RAM estimate zeroed, key cleared, handle
closed, owner cleared; PID and refCount are kept. -/
def clearedEntry (c : CacheEntry) : CacheEntry :=
  { c with nRAMUsage := 0, pszFileNameAndOpenOptions := none, poDS := none,
           pszOwner := none }

/-- Characterization of a successful EvictEntryWithZeroRefCount call: the
candidate is the element at the greatest index satisfying the filter (the
least recently used one); the pool RAM accumulator drops by its estimate;
the candidate is cleared and either updated in place (RAM pressure) or
moved to the head (recycling); when it held a handle, exactly one GDALClose
runs, under the candidate's recorded opener PID, and the saved PID is
restored; otherwise no close happens and the thread-local PID is
untouched. -/
theorem evict_eq_some (b : Bool) (pid : Int) (l : List CacheEntry)
    (ram tls : Int) (l' : List CacheEntry) (ram' : Int)
    (evs : List CloseEvent) (tls' : Int)
    (h : evictEntryWithZeroRefCount b pid l ram tls =
      some (l', ram', evs, tls')) :
    ∃ i, lastMatchIdx (evictPred b) l = some i ∧ i < l.length ∧
      evictPred b (l.getD i default) = true ∧
      (∀ j, i < j → j < l.length → evictPred b (l.getD j default) = false) ∧
      ram' = ram - (l.getD i default).nRAMUsage ∧
      l' = (if b then l.set i (clearedEntry (l.getD i default))
            else clearedEntry (l.getD i default) :: l.eraseIdx i) ∧
      ((∃ hdl, (l.getD i default).poDS = some hdl ∧
          evs = [{ poDS := hdl,
                   closerPID := (l.getD i default).responsiblePID,
                   openerPID := (l.getD i default).responsiblePID }] ∧
          tls' = pid) ∨
       ((l.getD i default).poDS = none ∧ evs = [] ∧ tls' = tls)) := by
  unfold evictEntryWithZeroRefCount at h
  cases hidx : lastMatchIdx (evictPred b) l with
  | none => rw [hidx] at h; simp at h
  | some i =>
    rw [hidx] at h
    obtain ⟨hlt, hp, hlast⟩ := lastMatchIdx_eq_some (evictPred b) default l i hidx
    refine ⟨i, rfl, hlt, hp, hlast, ?_⟩
    simp only [Option.some.injEq] at h
    revert h hp
    generalize l.getD i default = c
    obtain ⟨pid0, key0, own0, po0, ram0, rc0⟩ := c
    intro hp h
    cases po0 with
    | none =>
      simp only [Prod.mk.injEq] at h
      obtain ⟨h1, h2, h3, h4⟩ := h
      refine ⟨by rw [← h2], by rw [← h1]; simp [clearedEntry], ?_⟩
      exact Or.inr ⟨rfl, h3.symm, h4.symm⟩
    | some hdl =>
      simp only [Prod.mk.injEq] at h
      obtain ⟨h1, h2, h3, h4⟩ := h
      refine ⟨by rw [← h2], by rw [← h1]; simp [clearedEntry], ?_⟩
      exact Or.inl ⟨hdl, rfl, h3.symm, h4.symm⟩

/-- EvictEntryWithZeroRefCount fails exactly when no entry passes the
candidate filter. -/
theorem evict_eq_none (b : Bool) (pid : Int) (l : List CacheEntry)
    (ram tls : Int) :
    evictEntryWithZeroRefCount b pid l ram tls = none ↔
      ∀ e ∈ l, evictPred b e = false := by
  constructor
  · intro h
    cases hidx : lastMatchIdx (evictPred b) l with
    | none => exact (lastMatchIdx_eq_none _ _).mp hidx
    | some i =>
      unfold evictEntryWithZeroRefCount at h
      rw [hidx] at h
      simp at h
  · intro hall
    unfold evictEntryWithZeroRefCount
    rw [(lastMatchIdx_eq_none _ _).mpr hall]

/-- Eviction preserves the RAM accounting invariant: the closed entry's
estimate is removed from both the accumulator and the per-entry sum. -/
theorem evict_RamInv (b : Bool) (pid : Int) (l : List CacheEntry)
    (ram tls : Int) (l' : List CacheEntry) (ram' : Int)
    (evs : List CloseEvent) (tls' : Int)
    (hinv : RamInv l ram)
    (h : evictEntryWithZeroRefCount b pid l ram tls =
      some (l', ram', evs, tls')) :
    RamInv l' ram' := by
  obtain ⟨i, hidx, hlt, hp, hlast, hram, hl', hevs⟩ :=
    evict_eq_some b pid l ram tls l' ram' evs tls' h
  obtain ⟨hsum, hok⟩ := hinv
  have hcl : (clearedEntry (l.getD i default)).nRAMUsage = 0 := rfl
  have hclOK : entryRamOK (clearedEntry (l.getD i default)) := by
    constructor
    · simp [clearedEntry]
    · intro _; rfl
  cases b with
  | true =>
    simp only [if_pos] at hl'
    constructor
    · rw [hl', sumRAM_set l i _ hlt, hcl, hram, hsum]
      ring
    · intro e he
      rw [hl'] at he
      rcases List.mem_or_eq_of_mem_set he with he | rfl
      · exact hok e he
      · exact hclOK
  | false =>
    simp only [Bool.false_eq_true, if_neg, if_false] at hl'
    constructor
    · rw [hl', sumRAM_cons, hcl, sumRAM_eraseIdx l i hlt, hram, hsum]
      ring
    · intro e he
      rw [hl'] at he
      rcases List.mem_cons.mp he with rfl | he
      · exact hclOK
      · exact hok e ((List.eraseIdx_sublist l i).subset he)

/-- An entry set counts at most the whole list. -/
theorem countPos_le_length (l : List CacheEntry) : countPos l ≤ l.length :=
  List.length_filter_le _ l

/-- Replacing a positive-RAM entry by a zero-RAM entry strictly decreases
the number of positive-RAM entries. -/
theorem countPos_set_lt :
    ∀ (l : List CacheEntry) (i : Nat) (c : CacheEntry), i < l.length →
      0 < (l.getD i default).nRAMUsage → c.nRAMUsage = 0 →
      countPos (l.set i c) < countPos l := by
  intro l
  induction l with
  | nil => intro i c h; simp at h
  | cons x xs ih =>
    intro i c hlen hpos hc
    cases i with
    | zero =>
      simp only [List.getD_cons_zero] at hpos
      simp only [List.set]
      unfold countPos
      simp only [List.filter]
      rw [show decide (0 < c.nRAMUsage) = false by simp [hc]]
      rw [show decide (0 < x.nRAMUsage) = true by simp [hpos]]
      simp
    | succ i =>
      have hlen' : i < xs.length := by simpa using hlen
      have hpos' : 0 < (xs.getD i default).nRAMUsage := by
        simpa using hpos
      have := ih i c hlen' hpos' hc
      simp only [List.set]
      unfold countPos
      simp only [List.filter]
      cases hx : decide (0 < x.nRAMUsage) with
      | true => simpa [countPos] using Nat.succ_lt_succ this
      | false => simpa [countPos] using this

/-- A RAM-pressure eviction closes an entry with a positive estimate in
place, so it keeps the list length and strictly decreases the number of
positive-RAM entries. -/
theorem evict_true_countPos (pid : Int) (l : List CacheEntry)
    (ram tls : Int) (l' : List CacheEntry) (ram' : Int)
    (evs : List CloseEvent) (tls' : Int)
    (h : evictEntryWithZeroRefCount true pid l ram tls =
      some (l', ram', evs, tls')) :
    countPos l' < countPos l ∧ l'.length = l.length := by
  obtain ⟨i, hidx, hlt, hp, hlast, hram, hl', hevs⟩ :=
    evict_eq_some true pid l ram tls l' ram' evs tls' h
  simp only [if_pos] at hl'
  have hpos : 0 < (l.getD i default).nRAMUsage := by
    unfold evictPred at hp
    simp only [Bool.not_true, Bool.false_or, Bool.and_eq_true,
      decide_eq_true_eq] at hp
    exact hp.2
  subst hl'
  exact ⟨countPos_set_lt l i _ hlt hpos rfl, List.length_set l i _⟩

/-- The RAM-pressure loop never touches the pool's flags, budgets, entry
count, or entry-list length: it only closes handles in place. -/
theorem ramEvictLoop_frame (pid curRam : Int) :
    ∀ (fuel : Nat) (st : PoolState) (tls : Int),
      (ramEvictLoop fuel pid curRam st tls).1.bInDestruction =
        st.bInDestruction ∧
      (ramEvictLoop fuel pid curRam st tls).1.maxSize = st.maxSize ∧
      (ramEvictLoop fuel pid curRam st tls).1.currentSize = st.currentSize ∧
      (ramEvictLoop fuel pid curRam st tls).1.nMaxRAMUsage =
        st.nMaxRAMUsage ∧
      (ramEvictLoop fuel pid curRam st tls).1.entries.length =
        st.entries.length := by
  intro fuel
  induction fuel with
  | zero => intro st tls; exact ⟨rfl, rfl, rfl, rfl, rfl⟩
  | succ fuel ih =>
    intro st tls
    unfold ramEvictLoop
    by_cases hc : st.nMaxRAMUsage < st.nRAMUsage ∧ st.nRAMUsage ≠ curRam
    · rw [if_pos hc]
      cases hev : evictEntryWithZeroRefCount true pid st.entries
          st.nRAMUsage tls with
      | none => exact ⟨rfl, rfl, rfl, rfl, rfl⟩
      | some out =>
        obtain ⟨e1, r1, evs1, tls1⟩ := out
        have hlen := (evict_true_countPos pid st.entries st.nRAMUsage tls
          e1 r1 evs1 tls1 hev).2
        have := ih { st with entries := e1, nRAMUsage := r1 } tls1
        simp only [] at this ⊢
        exact ⟨this.1, this.2.1, this.2.2.1, this.2.2.2.1,
          by rw [this.2.2.2.2]; simpa using hlen⟩
    · rw [if_neg hc]
      exact ⟨rfl, rfl, rfl, rfl, rfl⟩

/-- The RAM-pressure loop preserves the RAM accounting invariant. -/
theorem ramEvictLoop_RamInv (pid curRam : Int) :
    ∀ (fuel : Nat) (st : PoolState) (tls : Int), RamWF st →
      RamWF (ramEvictLoop fuel pid curRam st tls).1 := by
  intro fuel
  induction fuel with
  | zero => intro st tls h; exact h
  | succ fuel ih =>
    intro st tls h
    unfold ramEvictLoop
    by_cases hc : st.nMaxRAMUsage < st.nRAMUsage ∧ st.nRAMUsage ≠ curRam
    · rw [if_pos hc]
      cases hev : evictEntryWithZeroRefCount true pid st.entries
          st.nRAMUsage tls with
      | none => exact h
      | some out =>
        obtain ⟨e1, r1, evs1, tls1⟩ := out
        have hinv : RamInv e1 r1 :=
          evict_RamInv true pid st.entries st.nRAMUsage tls e1 r1 evs1 tls1 h hev
        exact ih { st with entries := e1, nRAMUsage := r1 } tls1 hinv
    · rw [if_neg hc]
      exact h

/-- The just-opened entry sits at the head of the list and never passes the
RAM-pressure filter (its refCount is 1), so the loop leaves the head
untouched. -/
theorem ramEvictLoop_head (pid curRam : Int) :
    ∀ (fuel : Nat) (st : PoolState) (tls : Int) (e : CacheEntry)
      (tl : List CacheEntry),
      st.entries = e :: tl → evictPred true e = false →
      ∃ tl', (ramEvictLoop fuel pid curRam st tls).1.entries = e :: tl' := by
  intro fuel
  induction fuel with
  | zero => intro st tls e tl hst _; exact ⟨tl, by simpa using hst⟩
  | succ fuel ih =>
    intro st tls e tl hst hpe
    unfold ramEvictLoop
    by_cases hc : st.nMaxRAMUsage < st.nRAMUsage ∧ st.nRAMUsage ≠ curRam
    · rw [if_pos hc]
      cases hev : evictEntryWithZeroRefCount true pid st.entries
          st.nRAMUsage tls with
      | none => exact ⟨tl, by simpa using hst⟩
      | some out =>
        obtain ⟨e1, r1, evs1, tls1⟩ := out
        obtain ⟨i, hidx, hlt, hp, hlast, hram, hl', hevs⟩ :=
          evict_eq_some true pid st.entries st.nRAMUsage tls
            e1 r1 evs1 tls1 hev
        simp only [if_pos] at hl'
        cases i with
        | zero =>
          rw [hst] at hp
          simp only [List.getD_cons_zero] at hp
          rw [hpe] at hp
          exact absurd hp (by simp)
        | succ i =>
          rw [hst] at hl'
          simp only [List.set] at hl'
          obtain ⟨tl'', htl''⟩ :=
            ih { st with entries := e1, nRAMUsage := r1 } tls1 e _
              (by rw [hl']) hpe
          exact ⟨tl'', htl''⟩
    · rw [if_neg hc]
      exact ⟨tl, by simpa using hst⟩

/-- Every close performed by the RAM-pressure loop runs under the closed
entry's recorded opener PID, and when the loop starts with the thread-local
PID equal to the saved one it also ends that way. -/
theorem ramEvictLoop_closes (pid curRam : Int) :
    ∀ (fuel : Nat) (st : PoolState) (tls : Int),
      (∀ ev ∈ (ramEvictLoop fuel pid curRam st tls).2.1,
        ev.closerPID = ev.openerPID) ∧
      (tls = pid → (ramEvictLoop fuel pid curRam st tls).2.2 = pid) := by
  intro fuel
  induction fuel with
  | zero => intro st tls; exact ⟨by simp [ramEvictLoop], fun h => h⟩
  | succ fuel ih =>
    intro st tls
    unfold ramEvictLoop
    by_cases hc : st.nMaxRAMUsage < st.nRAMUsage ∧ st.nRAMUsage ≠ curRam
    · rw [if_pos hc]
      cases hev : evictEntryWithZeroRefCount true pid st.entries
          st.nRAMUsage tls with
      | none => exact ⟨by simp, fun h => h⟩
      | some out =>
        obtain ⟨e1, r1, evs1, tls1⟩ := out
        obtain ⟨i, hidx, hlt, hp, hlast, hram, hl', hevs⟩ :=
          evict_eq_some true pid st.entries st.nRAMUsage tls
            e1 r1 evs1 tls1 hev
        have hrec := ih { st with entries := e1, nRAMUsage := r1 } tls1
        constructor
        · intro ev hev'
          simp only [List.mem_append] at hev'
          rcases hev' with hev' | hev'
          · rcases hevs with ⟨hdl, _, hevs1, _⟩ | ⟨_, hevs1, _⟩
            · rw [hevs1] at hev'
              simp only [List.mem_singleton] at hev'
              rw [hev']
            · rw [hevs1] at hev'
              simp at hev'
          · exact hrec.1 ev hev'
        · intro htls
          rcases hevs with ⟨hdl, _, _, htls1⟩ | ⟨_, _, htls1⟩
          · exact hrec.2 htls1
          · exact hrec.2 (htls1.trans htls)
    · rw [if_neg hc]
      exact ⟨by simp, fun h => h⟩

/-- With enough fuel (one unit per positive-RAM entry) the RAM-pressure
loop stops only for one of the source's three reasons: the accumulator is
within budget, the accumulator equals the just-opened entry's estimate, or
no candidate passes the filter any more. -/
theorem ramEvictLoop_post (pid curRam : Int) :
    ∀ (fuel : Nat) (st : PoolState) (tls : Int),
      countPos st.entries ≤ fuel →
      ((ramEvictLoop fuel pid curRam st tls).1.nRAMUsage ≤
          (ramEvictLoop fuel pid curRam st tls).1.nMaxRAMUsage ∨
       (ramEvictLoop fuel pid curRam st tls).1.nRAMUsage = curRam ∨
       ∀ e ∈ (ramEvictLoop fuel pid curRam st tls).1.entries,
         evictPred true e = false) := by
  intro fuel
  induction fuel with
  | zero =>
    intro st tls hfuel
    have hzero : countPos st.entries = 0 := Nat.le_zero.mp hfuel
    refine Or.inr (Or.inr ?_)
    intro e he
    have hnotpos : decide (0 < e.nRAMUsage) = false := by
      by_contra hcon
      have : decide (0 < e.nRAMUsage) = true := by
        cases hdec : decide (0 < e.nRAMUsage) with
        | true => rfl
        | false => exact absurd hdec hcon
      have hmem : e ∈ st.entries.filter (fun e => decide (0 < e.nRAMUsage)) :=
        List.mem_filter.mpr ⟨he, this⟩
      have : 0 < countPos st.entries := by
        unfold countPos
        exact List.length_pos.mpr (fun hnil => by rw [hnil] at hmem; simp at hmem)
      omega
    unfold evictPred
    rw [hnotpos]
    simp
  | succ fuel ih =>
    intro st tls hfuel
    unfold ramEvictLoop
    by_cases hc : st.nMaxRAMUsage < st.nRAMUsage ∧ st.nRAMUsage ≠ curRam
    · rw [if_pos hc]
      cases hev : evictEntryWithZeroRefCount true pid st.entries
          st.nRAMUsage tls with
      | none =>
        refine Or.inr (Or.inr ?_)
        exact (evict_eq_none true pid st.entries st.nRAMUsage tls).mp hev
      | some out =>
        obtain ⟨e1, r1, evs1, tls1⟩ := out
        have hdec := (evict_true_countPos pid st.entries st.nRAMUsage tls
          e1 r1 evs1 tls1 hev).1
        have hcp : countPos
            ({ st with entries := e1, nRAMUsage := r1 } : PoolState).entries =
            countPos e1 := rfl
        exact ih { st with entries := e1, nRAMUsage := r1 } tls1
          (by rw [hcp]; omega)
    · rw [if_neg hc]
      push_neg at hc
      by_cases hle : st.nRAMUsage ≤ st.nMaxRAMUsage
      · exact Or.inl hle
      · refine Or.inr (Or.inl ?_)
        have := hc (by omega)
        simpa using this

/-- Default-read of an in-range index is a member of the list. -/
theorem getD_mem {α : Type} (l : List α) (i : Nat) (d : α) (h : i < l.length) :
    l.getD i d ∈ l := by
  rw [List.getD_eq_getElem l d h]
  exact List.getElem_mem h

/-- Characterization of a successful slot acquisition: the slot to fill is
at the head, empty (no RAM, no handle, refCount 0); the pool flags and
budgets are untouched; the RAM invariant is preserved; any close performed
ran under the closed entry's opener PID, and the saved thread-local PID is
restored. -/
theorem acquireSlot_spec (st : PoolState) (pid tls : Int) (st1 : PoolState)
    (evs1 : List CloseEvent) (tls1 : Int)
    (h : acquireSlot st pid tls = some (st1, evs1, tls1)) :
    (∃ c0 rest, st1.entries = c0 :: rest ∧ c0.nRAMUsage = 0 ∧
      c0.refCount = 0 ∧ c0.poDS = none) ∧
    st1.bInDestruction = st.bInDestruction ∧ st1.maxSize = st.maxSize ∧
    st1.nMaxRAMUsage = st.nMaxRAMUsage ∧
    (RamWF st → RamWF st1) ∧
    (∀ ev ∈ evs1, ev.closerPID = ev.openerPID) ∧
    (tls = pid → tls1 = pid) := by
  unfold acquireSlot at h
  by_cases hcap : st.currentSize = st.maxSize
  · rw [if_pos hcap] at h
    cases hev : evictEntryWithZeroRefCount false pid st.entries
        st.nRAMUsage tls with
    | none => rw [hev] at h; simp at h
    | some out =>
      obtain ⟨e1, r1, evs1', tls1'⟩ := out
      rw [hev] at h
      simp only [Option.some.injEq, Prod.mk.injEq] at h
      obtain ⟨hst1, hevs1, htls1⟩ := h
      obtain ⟨i, hidx, hlt, hp, hlast, hram, hl', hclose⟩ :=
        evict_eq_some false pid st.entries st.nRAMUsage tls
          e1 r1 evs1' tls1' hev
      simp only [Bool.false_eq_true, if_false] at hl'
      have hrc : (st.entries.getD i default).refCount = 0 := by
        unfold evictPred at hp
        simp only [Bool.not_false, Bool.true_or, Bool.and_true,
          beq_iff_eq] at hp
        exact hp
      refine ⟨⟨clearedEntry (st.entries.getD i default), st.entries.eraseIdx i,
        ?_, rfl, ?_, rfl⟩, ?_, ?_, ?_, ?_, ?_, ?_⟩
      · rw [← hst1]
        exact hl'
      · simpa [clearedEntry] using hrc
      · rw [← hst1]
      · rw [← hst1]
      · rw [← hst1]
      · intro hwf
        have : RamInv e1 r1 :=
          evict_RamInv false pid st.entries st.nRAMUsage tls
            e1 r1 evs1' tls1' hwf hev
        rw [← hst1]
        exact this
      · intro ev hev'
        rw [← hevs1] at hev'
        rcases hclose with ⟨hdl, _, hevs', _⟩ | ⟨_, hevs', _⟩
        · rw [hevs'] at hev'
          simp only [List.mem_singleton] at hev'
          rw [hev']
        · rw [hevs'] at hev'
          simp at hev'
      · intro htls
        rw [← htls1]
        rcases hclose with ⟨hdl, _, _, h'⟩ | ⟨_, _, h'⟩
        · exact h'
        · exact h'.trans htls
  · rw [if_neg hcap] at h
    simp only [Option.some.injEq, Prod.mk.injEq] at h
    obtain ⟨hst1, hevs1, htls1⟩ := h
    refine ⟨⟨_, st.entries, by rw [← hst1], rfl, rfl, rfl⟩,
      by rw [← hst1], by rw [← hst1], by rw [← hst1], ?_, ?_, ?_⟩
    · intro hwf
      obtain ⟨hsum, hok⟩ := hwf
      constructor
      · rw [← hst1]
        simp only [sumRAM_cons]
        rw [hsum]
        ring
      · rw [← hst1]
        intro e he
        rcases List.mem_cons.mp he with rfl | he
        · exact ⟨le_refl 0, fun _ => rfl⟩
        · exact hok e he
    · intro ev hev'
      rw [← hevs1] at hev'
      simp at hev'
    · intro htls
      rw [← htls1]
      exact htls

/-- Slot acquisition fails exactly when the pool is at capacity and no
entry has refCount 0. -/
theorem acquireSlot_eq_none (st : PoolState) (pid tls : Int) :
    acquireSlot st pid tls = none ↔
      st.currentSize = st.maxSize ∧
      ∀ e ∈ st.entries, evictPred false e = false := by
  unfold acquireSlot
  by_cases hcap : st.currentSize = st.maxSize
  · rw [if_pos hcap]
    cases hev : evictEntryWithZeroRefCount false pid st.entries
        st.nRAMUsage tls with
    | none =>
      simp only []
      constructor
      · intro _; exact ⟨hcap, (evict_eq_none _ _ _ _ _).mp hev⟩
      · intro _; trivial
    | some out =>
      obtain ⟨e1, r1, evs1, tls1⟩ := out
      simp only []
      constructor
      · intro hcon; exact absurd hcon (by simp)
      · intro ⟨_, hall⟩
        rw [(evict_eq_none false pid st.entries st.nRAMUsage tls).mpr hall]
          at hev
        exact absurd hev (by simp)
  · rw [if_neg hcap]
    constructor
    · intro hcon; exact absurd hcon (by simp)
    · intro ⟨hc, _⟩; exact absurd hc hcap

/-- Result of the install-and-open step when the backend open fails: the
slot keeps its place at the head of the list, the key, owner and opener PID
just installed, no handle, no RAM estimate, and refCount 1 (decremented to
0 by the caller's release); no additional close happens. -/
theorem openIntoSlot_fail (st1 : PoolState) (k : String)
    (owner : Option String) (pid : Int) (evs1 : List CloseEvent) (tls1 : Int)
    (c0 : CacheEntry) (rest : List CacheEntry)
    (hst : st1.entries = c0 :: rest) :
    openIntoSlot st1 k owner pid none evs1 tls1 =
      ⟨{ st1 with entries :=
           { responsiblePID := pid, pszFileNameAndOpenOptions := some k,
             pszOwner := owner, poDS := none, nRAMUsage := 0,
             refCount := 1 } :: rest },
       evs1, tls1, .entry true⟩ := by
  unfold openIntoSlot
  rw [hst]

/-- Pool state right after a successful backend open has been recorded in
the head slot: the slot carries the installed key, owner and opener PID,
the handle, the clamped RAM estimate and refCount 1, and the accumulator
has grown by the estimate. -/
def openedState (st1 : PoolState) (k : String) (owner : Option String)
    (pid : Int) (h0 : Nat) (ramEst : Int) (rest : List CacheEntry) :
    PoolState :=
  { st1 with
      entries :=
        { responsiblePID := pid, pszFileNameAndOpenOptions := some k,
          pszOwner := owner, poDS := some h0, nRAMUsage := max 0 ramEst,
          refCount := 1 } :: rest,
      nRAMUsage := st1.nRAMUsage + max 0 ramEst }

/-- Result of the install-and-open step when the backend open succeeds: the
head slot is filled as in openedState and the RAM-pressure loop runs when
both the budget and the estimate are positive. -/
theorem openIntoSlot_success (st1 : PoolState) (k : String)
    (owner : Option String) (pid : Int) (h0 : Nat) (ramEst : Int)
    (evs1 : List CloseEvent) (tls1 : Int)
    (c0 : CacheEntry) (rest : List CacheEntry)
    (hst : st1.entries = c0 :: rest) :
    openIntoSlot st1 k owner pid (some (h0, ramEst)) evs1 tls1 =
      (if 0 < st1.nMaxRAMUsage ∧ 0 < max 0 ramEst then
         (fun out => (⟨out.1, evs1 ++ out.2.1, out.2.2, .entry true⟩ : RefOut))
           (ramEvictLoop (rest.length + 1) pid (max 0 ramEst)
             (openedState st1 k owner pid h0 ramEst rest) tls1)
       else ⟨openedState st1 k owner pid h0 ramEst rest, evs1, tls1,
             .entry true⟩) := by
  unfold openIntoSlot
  rw [hst]
  simp only [openedState, List.length_cons]

/-- On a cache hit _RefDataset promotes the matched entry to the head with
its refCount incremented, performs no close and no backend open, and leaves
the thread-local PID alone. -/
theorem refDataset_eq_hit (st : PoolState) (f : String) (opts : List String)
    (sh force : Bool) (owner : Option String) (pid : Int)
    (openRes : Option (Nat × Int)) (tls : Int) (i : Nat)
    (hdes : st.bInDestruction = false)
    (hidx : firstMatchIdx
      (entryMatches (GetFilenameAndOpenOptions f opts) sh pid owner)
      st.entries = some i) :
    refDataset st f opts sh force owner pid openRes tls =
      ⟨{ st with entries :=
           { st.entries.getD i default with
               refCount := (st.entries.getD i default).refCount + 1 } ::
             st.entries.eraseIdx i },
       [], tls, .entry false⟩ := by
  unfold refDataset
  rw [hdes]
  simp only [Bool.false_eq_true, if_false, hidx]

/-- On a miss with bForceOpen set, _RefDataset is the composition of slot
acquisition and install-and-open. -/
theorem refDataset_eq_miss (st : PoolState) (f : String) (opts : List String)
    (sh : Bool) (owner : Option String) (pid : Int)
    (openRes : Option (Nat × Int)) (tls : Int)
    (hdes : st.bInDestruction = false)
    (hidx : firstMatchIdx
      (entryMatches (GetFilenameAndOpenOptions f opts) sh pid owner)
      st.entries = none) :
    refDataset st f opts sh true owner pid openRes tls =
      (match acquireSlot st pid tls with
       | none => ⟨st, [], tls, .nullExhausted⟩
       | some (st1, evs1, tls1) =>
         openIntoSlot st1 (GetFilenameAndOpenOptions f opts) owner pid
           openRes evs1 tls1) := by
  unfold refDataset
  rw [hdes]
  simp only [Bool.false_eq_true, if_false, hidx, Bool.not_true]

/-- During teardown _RefDataset returns null and changes nothing. -/
theorem refDataset_inDestruction (st : PoolState) (f : String)
    (opts : List String) (sh force : Bool) (owner : Option String) (pid : Int)
    (openRes : Option (Nat × Int)) (tls : Int)
    (hdes : st.bInDestruction = true) :
    refDataset st f opts sh force owner pid openRes tls =
      ⟨st, [], tls, .nullInDestruction⟩ := by
  unfold refDataset
  rw [hdes]
  rfl

/-- With no match and bForceOpen unset, _RefDataset returns null and
changes nothing. -/
theorem refDataset_noForce (st : PoolState) (f : String)
    (opts : List String) (sh : Bool) (owner : Option String) (pid : Int)
    (openRes : Option (Nat × Int)) (tls : Int)
    (hdes : st.bInDestruction = false)
    (hidx : firstMatchIdx
      (entryMatches (GetFilenameAndOpenOptions f opts) sh pid owner)
      st.entries = none) :
    refDataset st f opts sh false owner pid openRes tls =
      ⟨st, [], tls, .nullNoForce⟩ := by
  unfold refDataset
  rw [hdes]
  simp only [Bool.false_eq_true, if_false, hidx, Bool.not_false, if_true]

/-- Every path through _RefDataset preserves the RAM accounting invariant:
a successful open adds the new entry's estimate to both sides, and every
close subtracts the closed entry's estimate from both sides. -/
theorem refDataset_RamWF (st : PoolState) (f : String) (opts : List String)
    (sh force : Bool) (owner : Option String) (pid : Int)
    (openRes : Option (Nat × Int)) (tls : Int) (h : RamWF st) :
    RamWF (refDataset st f opts sh force owner pid openRes tls).st := by
  cases hdes : st.bInDestruction with
  | true =>
    rw [refDataset_inDestruction st f opts sh force owner pid openRes tls hdes]
    exact h
  | false =>
    cases hidx : firstMatchIdx
        (entryMatches (GetFilenameAndOpenOptions f opts) sh pid owner)
        st.entries with
    | some i =>
      rw [refDataset_eq_hit st f opts sh force owner pid openRes tls i hdes hidx]
      obtain ⟨hlt, hp⟩ := firstMatchIdx_eq_some _ default st.entries i hidx
      obtain ⟨hsum, hok⟩ := h
      constructor
      · show st.nRAMUsage = sumRAM (_ :: _)
        rw [sumRAM_cons, sumRAM_eraseIdx st.entries i hlt]
        have hbump : ({ st.entries.getD i default with
            refCount := (st.entries.getD i default).refCount + 1 } :
            CacheEntry).nRAMUsage = (st.entries.getD i default).nRAMUsage := rfl
        rw [hbump, hsum]
        ring
      · intro e he
        rcases List.mem_cons.mp he with rfl | he
        · exact hok (st.entries.getD i default)
            (getD_mem st.entries i default hlt)
        · exact hok e ((List.eraseIdx_sublist st.entries i).subset he)
    | none =>
      cases force with
      | false =>
        rw [refDataset_noForce st f opts sh owner pid openRes tls hdes hidx]
        exact h
      | true =>
        rw [refDataset_eq_miss st f opts sh owner pid openRes tls hdes hidx]
        cases hacq : acquireSlot st pid tls with
        | none => exact h
        | some out =>
          obtain ⟨st1, evs1, tls1⟩ := out
          show RamWF (openIntoSlot st1 (GetFilenameAndOpenOptions f opts)
            owner pid openRes evs1 tls1).st
          obtain ⟨⟨c0, rest, hst1, hc0ram, hc0rc, hc0po⟩, _, _, _, hwf1, _, _⟩ :=
            acquireSlot_spec st pid tls st1 evs1 tls1 hacq
          have hwf1' := hwf1 h
          obtain ⟨hsum1, hok1⟩ := hwf1'
          have hsum1' : st1.nRAMUsage = sumRAM rest := by
            rw [hst1, sumRAM_cons, hc0ram] at hsum1
            omega
          cases openRes with
          | none =>
            rw [openIntoSlot_fail st1 _ owner pid evs1 tls1 c0 rest hst1]
            constructor
            · show st1.nRAMUsage = sumRAM (_ :: rest)
              rw [sumRAM_cons]
              simpa using hsum1'
            · intro e he
              rcases List.mem_cons.mp he with rfl | he
              · exact ⟨le_refl 0, fun _ => rfl⟩
              · exact hok1 e (by rw [hst1]; exact List.mem_cons_of_mem _ he)
          | some hr =>
            obtain ⟨h0, ramEst⟩ := hr
            rw [openIntoSlot_success st1 _ owner pid h0 ramEst evs1 tls1 c0
              rest hst1]
            have hwf2 : RamWF (openedState st1
                (GetFilenameAndOpenOptions f opts) owner pid h0 ramEst rest) := by
              constructor
              · show st1.nRAMUsage + max 0 ramEst = sumRAM (_ :: rest)
                rw [sumRAM_cons]
                show st1.nRAMUsage + max 0 ramEst = max 0 ramEst + sumRAM rest
                rw [hsum1']
                ring
              · intro e he
                rcases List.mem_cons.mp he with rfl | he
                · refine ⟨le_max_left 0 ramEst, ?_⟩
                  intro hcon
                  simp at hcon
                · exact hok1 e (by rw [hst1]; exact List.mem_cons_of_mem _ he)
            by_cases hcond : 0 < st1.nMaxRAMUsage ∧ 0 < max 0 ramEst
            · rw [if_pos hcond]
              exact ramEvictLoop_RamInv pid (max 0 ramEst) (rest.length + 1)
                _ tls1 hwf2
            · rw [if_neg hcond]
              exact hwf2

/-- Every close performed anywhere inside _RefDataset runs under the closed
entry's recorded opener PID, and when the call starts with the thread-local
PID equal to the caller's responsible PID it ends with it unchanged. -/
theorem refDataset_closes (st : PoolState) (f : String) (opts : List String)
    (sh force : Bool) (owner : Option String) (pid : Int)
    (openRes : Option (Nat × Int)) (tls : Int) :
    (∀ ev ∈ (refDataset st f opts sh force owner pid openRes tls).closes,
       ev.closerPID = ev.openerPID) ∧
    (tls = pid → (refDataset st f opts sh force owner pid openRes tls).tls =
      pid) := by
  cases hdes : st.bInDestruction with
  | true =>
    rw [refDataset_inDestruction st f opts sh force owner pid openRes tls hdes]
    exact ⟨by simp, fun h => h⟩
  | false =>
    cases hidx : firstMatchIdx
        (entryMatches (GetFilenameAndOpenOptions f opts) sh pid owner)
        st.entries with
    | some i =>
      rw [refDataset_eq_hit st f opts sh force owner pid openRes tls i hdes hidx]
      exact ⟨by simp, fun h => h⟩
    | none =>
      cases force with
      | false =>
        rw [refDataset_noForce st f opts sh owner pid openRes tls hdes hidx]
        exact ⟨by simp, fun h => h⟩
      | true =>
        rw [refDataset_eq_miss st f opts sh owner pid openRes tls hdes hidx]
        cases hacq : acquireSlot st pid tls with
        | none => exact ⟨by simp, fun h => h⟩
        | some out =>
          obtain ⟨st1, evs1, tls1⟩ := out
          show (∀ ev ∈ (openIntoSlot st1 (GetFilenameAndOpenOptions f opts)
              owner pid openRes evs1 tls1).closes,
              ev.closerPID = ev.openerPID) ∧
            (tls = pid → (openIntoSlot st1 (GetFilenameAndOpenOptions f opts)
              owner pid openRes evs1 tls1).tls = pid)
          obtain ⟨⟨c0, rest, hst1, _, _, _⟩, _, _, _, _, hevs1, htls1⟩ :=
            acquireSlot_spec st pid tls st1 evs1 tls1 hacq
          cases openRes with
          | none =>
            rw [openIntoSlot_fail st1 _ owner pid evs1 tls1 c0 rest hst1]
            exact ⟨hevs1, htls1⟩
          | some hr =>
            obtain ⟨h0, ramEst⟩ := hr
            rw [openIntoSlot_success st1 _ owner pid h0 ramEst evs1 tls1 c0
              rest hst1]
            by_cases hcond : 0 < st1.nMaxRAMUsage ∧ 0 < max 0 ramEst
            · rw [if_pos hcond]
              have hloop := ramEvictLoop_closes pid (max 0 ramEst)
                (rest.length + 1)
                (openedState st1 (GetFilenameAndOpenOptions f opts) owner pid
                  h0 ramEst rest) tls1
              constructor
              · intro ev hev
                simp only [List.mem_append] at hev
                rcases hev with hev | hev
                · exact hevs1 ev hev
                · exact hloop.1 ev hev
              · intro htls
                exact hloop.2 (htls1 htls)
            · rw [if_neg hcond]
              exact ⟨hevs1, htls1⟩

/-- The owner-tag comparison of the source is equality of the optional
tags. -/
theorem ownerMatches_iff_eq (a b : Option String) :
    ownerMatches a b = true ↔ a = b := by
  cases a <;> cases b <;> simp [ownerMatches]

/-- Equality of optional owner tags spelt out as the source's two cases:
both absent, or both present and equal. -/
theorem ownerEq_iff_cases (a b : Option String) :
    a = b ↔ ((a = none ∧ b = none) ∨ ∃ s, a = some s ∧ b = some s) := by
  cases a with
  | none => cases b <;> simp
  | some x =>
    cases b with
    | none => simp
    | some y =>
      constructor
      · intro h
        exact Or.inr ⟨x, rfl, h.symm⟩
      · rintro (⟨h1, h2⟩ | ⟨s, h1, h2⟩)
        · exact absurd h1 (by simp)
        · exact h1.trans h2.symm

/-- The key comparison holds exactly when the stored key equals the request
key. -/
theorem keyMatch_iff (k : String) (e : CacheEntry) :
    keyMatch k e = true ↔ e.pszFileNameAndOpenOptions = some k := by
  unfold keyMatch
  cases hk : e.pszFileNameAndOpenOptions <;> simp [hk]

/-- The matching predicate of _RefDataset, as a proposition: it holds iff
the refCount is non-negative (so the in-progress sentinel -1 never
matches), the stored key is byte-equal to the request key, and either the
request is shared with the entry's opener PID equal to the requesting PID
and equal owner tags (both absent, or both present and equal), or the
request is exclusive and the entry's refCount is zero. -/
theorem entryMatches_iff_core (k : String) (bShared : Bool) (pid : Int)
    (owner : Option String) (e : CacheEntry) :
    entryMatches k bShared pid owner e = true ↔
      (0 ≤ e.refCount ∧ e.pszFileNameAndOpenOptions = some k ∧
       ((bShared = true ∧ e.responsiblePID = pid ∧ e.pszOwner = owner) ∨
        (bShared = false ∧ e.refCount = 0))) := by
  cases bShared <;>
    simp [entryMatches, keyMatch_iff, ownerMatches_iff_eq] <;> tauto

/-- The matching predicate of _RefDataset, as a proposition: it holds iff
the refCount is non-negative (so the in-progress sentinel -1 never
matches), the stored key is byte-equal to the request key, and either the
request is shared with the entry's opener PID equal to the requesting PID
and equal owner tags (both absent, or both present and equal), or the
request is exclusive and the entry's refCount is zero. -/
theorem entryMatches_iff (k : String) (bShared : Bool) (pid : Int)
    (owner : Option String) (e : CacheEntry) :
    entryMatches k bShared pid owner e = true ↔
      (0 ≤ e.refCount ∧ e.pszFileNameAndOpenOptions = some k ∧
       ((bShared = true ∧ e.responsiblePID = pid ∧
          ((e.pszOwner = none ∧ owner = none) ∨
           (∃ s, e.pszOwner = some s ∧ owner = some s))) ∨
        (bShared = false ∧ e.refCount = 0))) := by
  rw [entryMatches_iff_core, ownerEq_iff_cases e.pszOwner owner]

/-- The recycling filter holds exactly on idle entries. -/
theorem evictPred_false_iff (e : CacheEntry) :
    evictPred false e = true ↔ e.refCount = 0 := by
  simp [evictPred]

/-- The RAM-pressure filter holds exactly on idle entries with a positive
RAM estimate. -/
theorem evictPred_true_iff (e : CacheEntry) :
    evictPred true e = true ↔ (e.refCount = 0 ∧ 0 < e.nRAMUsage) := by
  simp [evictPred]

/-- Reading back the just-set position. -/
theorem getD_set_self (l : List CacheEntry) (i : Nat) (c d : CacheEntry)
    (h : i < l.length) : (l.set i c).getD i d = c := by
  have h' : i < (l.set i c).length := by
    rw [List.length_set]
    exact h
  rw [List.getD_eq_getElem _ d h']
  exact List.getElem_set_self h'

/-- Reading any other position after a set. -/
theorem getD_set_ne (l : List CacheEntry) (i j : Nat) (c d : CacheEntry)
    (hne : j ≠ i) : (l.set i c).getD j d = l.getD j d := by
  by_cases hj : j < l.length
  · have hj' : j < (l.set i c).length := by
      rw [List.length_set]
      exact hj
    rw [List.getD_eq_getElem _ d hj', List.getD_eq_getElem _ d hj]
    exact List.getElem_set_ne (fun h => hne h.symm) _
  · have hj2 : ¬ j < (l.set i c).length := by
      rw [List.length_set]
      exact hj
    rw [List.getD_eq_default _ d (by omega), List.getD_eq_default _ d (by omega)]

/-- UnrefDataset (at any list position) preserves the RAM accounting
invariant: it only decrements a refCount. -/
theorem unrefAt_RamWF (st : PoolState) (i : Nat) (h : RamWF st) :
    RamWF (unrefAt st i) := by
  obtain ⟨hsum, hok⟩ := h
  by_cases hi : i < st.entries.length
  · constructor
    · show st.nRAMUsage = sumRAM (st.entries.set i _)
      rw [sumRAM_set st.entries i _ hi]
      have : (unrefDataset (st.entries.getD i default)).nRAMUsage =
          (st.entries.getD i default).nRAMUsage := rfl
      rw [this, hsum]
      ring
    · intro e he
      rcases List.mem_or_eq_of_mem_set he with he | rfl
      · exact hok e he
      · exact hok (st.entries.getD i default)
          (getD_mem st.entries i default hi)
  · show RamInv (st.entries.set i _) st.nRAMUsage
    rw [List.set_eq_of_length_le (by omega)]
    exact ⟨hsum, hok⟩

/-- Behaviour of _CloseDatasetIfZeroRefCount: it preserves the RAM
accounting invariant (the closed entry's estimate leaves both sides), every
close it performs runs under the closed entry's recorded opener PID, and
the thread-local PID saved on entry is restored. -/
theorem closeDatasetIfZeroRefCount_spec (st : PoolState) (f : String)
    (opts : List String) (owner : Option String) (tls : Int) :
    (RamWF st → RamWF (closeDatasetIfZeroRefCount st f opts owner tls).1) ∧
    (∀ ev ∈ (closeDatasetIfZeroRefCount st f opts owner tls).2.1,
      ev.closerPID = ev.openerPID) ∧
    (closeDatasetIfZeroRefCount st f opts owner tls).2.2 = tls := by
  cases hdes : st.bInDestruction with
  | true =>
    have heq : closeDatasetIfZeroRefCount st f opts owner tls =
        (st, [], tls) := by
      unfold closeDatasetIfZeroRefCount
      rw [hdes]
      rfl
    rw [heq]
    exact ⟨fun h => h, by simp, rfl⟩
  | false =>
    cases hidx : firstMatchIdx
        (closeIfIdlePred (GetFilenameAndOpenOptions f opts) owner)
        st.entries with
    | none =>
      have heq : closeDatasetIfZeroRefCount st f opts owner tls =
          (st, [], tls) := by
        unfold closeDatasetIfZeroRefCount
        rw [hdes]
        simp only [Bool.false_eq_true, if_false, hidx]
      rw [heq]
      exact ⟨fun h => h, by simp, rfl⟩
    | some i =>
      obtain ⟨hlt, hp⟩ := firstMatchIdx_eq_some _ default st.entries i hidx
      cases hpo : (st.entries.getD i default).poDS with
      | none =>
        have heq : closeDatasetIfZeroRefCount st f opts owner tls =
            (st, [], tls) := by
          unfold closeDatasetIfZeroRefCount
          rw [hdes]
          simp only [Bool.false_eq_true, if_false, hidx, hpo]
        rw [heq]
        exact ⟨fun h => h, by simp, rfl⟩
      | some hdl =>
        have heq : closeDatasetIfZeroRefCount st f opts owner tls =
            ({ st with
                 entries := st.entries.set i
                   { st.entries.getD i default with
                       nRAMUsage := 0, poDS := none,
                       pszFileNameAndOpenOptions := none, pszOwner := none },
                 nRAMUsage :=
                   st.nRAMUsage - (st.entries.getD i default).nRAMUsage },
             [{ poDS := hdl,
                closerPID := (st.entries.getD i default).responsiblePID,
                openerPID := (st.entries.getD i default).responsiblePID }],
             tls) := by
          unfold closeDatasetIfZeroRefCount
          rw [hdes]
          simp only [Bool.false_eq_true, if_false, hidx, hpo]
        rw [heq]
        refine ⟨?_, ?_, rfl⟩
        · intro hwf
          obtain ⟨hsum, hok⟩ := hwf
          constructor
          · show st.nRAMUsage - (st.entries.getD i default).nRAMUsage =
              sumRAM (st.entries.set i _)
            rw [sumRAM_set st.entries i _ hlt]
            have hz : ({ st.entries.getD i default with
                nRAMUsage := 0, poDS := none,
                pszFileNameAndOpenOptions := none, pszOwner := none } :
                CacheEntry).nRAMUsage = 0 := rfl
            rw [hz, hsum]
            ring
          · intro e he
            rcases List.mem_or_eq_of_mem_set he with he | rfl
            · exact hok e he
            · exact ⟨le_refl 0, fun _ => rfl⟩
        · intro ev hev
          simp only [List.mem_singleton] at hev
          rw [hev]

/-- Every close performed by EvictEntryWithZeroRefCount runs under the
closed entry's opener PID, and the saved responsible PID is restored. -/
theorem evict_closes (b : Bool) (pid : Int) (l : List CacheEntry)
    (ram tls : Int) (l' : List CacheEntry) (ram' : Int)
    (evs : List CloseEvent) (tls' : Int)
    (h : evictEntryWithZeroRefCount b pid l ram tls =
      some (l', ram', evs, tls')) :
    (∀ ev ∈ evs, ev.closerPID = ev.openerPID) ∧ (tls = pid → tls' = pid) := by
  obtain ⟨i, _, _, _, _, _, _, hevs⟩ :=
    evict_eq_some b pid l ram tls l' ram' evs tls' h
  constructor
  · intro ev hev
    rcases hevs with ⟨hdl, _, hevs1, _⟩ | ⟨_, hevs1, _⟩
    · rw [hevs1] at hev
      simp only [List.mem_singleton] at hev
      rw [hev]
    · rw [hevs1] at hev
      simp at hev
  · intro htls
    rcases hevs with ⟨hdl, _, _, h'⟩ | ⟨_, _, h'⟩
    · exact h'
    · exact h'.trans htls

/-- Shape of the _RefDataset result when a forced acquire misses the cache,
obtains a slot, and the backend open fails: the head slot keeps the key,
owner and opener PID that were installed before the open, with no handle,
no RAM estimate, and refCount 1 (the caller's release then brings it to
0); the rest of the list is what slot acquisition produced. -/
theorem refDataset_openFail_shape (st : PoolState) (f : String)
    (opts : List String) (sh : Bool) (owner : Option String) (pid tls : Int)
    (st1 : PoolState) (evs1 : List CloseEvent) (tls1 : Int)
    (hdes : st.bInDestruction = false)
    (hidx : firstMatchIdx
      (entryMatches (GetFilenameAndOpenOptions f opts) sh pid owner)
      st.entries = none)
    (hacq : acquireSlot st pid tls = some (st1, evs1, tls1)) :
    ∃ rest,
      refDataset st f opts sh true owner pid none tls =
        ⟨{ st1 with entries :=
             { responsiblePID := pid,
               pszFileNameAndOpenOptions :=
                 some (GetFilenameAndOpenOptions f opts),
               pszOwner := owner, poDS := none, nRAMUsage := 0,
               refCount := 1 } :: rest },
         evs1, tls1, .entry true⟩ ∧
      st1.bInDestruction = st.bInDestruction := by
  obtain ⟨⟨c0, rest, hst1, _, _, _⟩, hdes1, _, _, _, _, _⟩ :=
    acquireSlot_spec st pid tls st1 evs1 tls1 hacq
  refine ⟨rest, ?_, hdes1⟩
  rw [refDataset_eq_miss st f opts sh owner pid none tls hdes hidx, hacq]
  exact openIntoSlot_fail st1 _ owner pid evs1 tls1 c0 rest hst1

/-- C1: an existing cache entry is matched by a call to Acquire
(GDALDatasetPool::_RefDataset) if and only if its refCount is non-negative
(the sentinel -1 set while another open is in progress never matches), its
stored key is byte-equal to the request's descriptor-plus-options string,
and either the request is shared with the entry's opener thread id equal to
the current responsible thread id and equal owner tags (both absent, or
both present and string-equal), or the request is exclusive and the entry's
refCount is 0. On a match (the first one in scan order) the entry's
refCount is incremented by exactly one and that entry is returned, promoted
to the head of the LRU list. -/
theorem C1_matching_rule :
    (∀ (e : CacheEntry) (f : String) (opts : List String) (bShared : Bool)
       (pid : Int) (owner : Option String),
       entryMatches (GetFilenameAndOpenOptions f opts) bShared pid owner e =
           true ↔
         (0 ≤ e.refCount ∧
          e.pszFileNameAndOpenOptions =
            some (GetFilenameAndOpenOptions f opts) ∧
          ((bShared = true ∧ e.responsiblePID = pid ∧
             ((e.pszOwner = none ∧ owner = none) ∨
              (∃ s, e.pszOwner = some s ∧ owner = some s))) ∨
           (bShared = false ∧ e.refCount = 0)))) ∧
    (∀ (st : PoolState) (f : String) (opts : List String)
       (bShared force : Bool) (owner : Option String) (pid : Int)
       (openRes : Option (Nat × Int)) (tls : Int) (i : Nat),
       st.bInDestruction = false →
       firstMatchIdx
         (entryMatches (GetFilenameAndOpenOptions f opts) bShared pid owner)
         st.entries = some i →
       refDataset st f opts bShared force owner pid openRes tls =
         ⟨{ st with entries :=
              { st.entries.getD i default with
                  refCount := (st.entries.getD i default).refCount + 1 } ::
                st.entries.eraseIdx i },
          [], tls, .entry false⟩) :=
  ⟨fun e f opts bShared pid owner =>
     entryMatches_iff (GetFilenameAndOpenOptions f opts) bShared pid owner e,
   fun st f opts bShared force owner pid openRes tls i hdes hidx =>
     refDataset_eq_hit st f opts bShared force owner pid openRes tls i hdes
       hidx⟩

/-- Witness for C1 on a concrete pool: an idle entry with key "A" matches
an exclusive request for "A" and is returned with refCount 1. -/
theorem C1_matching_rule_witness :
    entryMatches (GetFilenameAndOpenOptions "A" []) false 7 none
        ⟨7, some "A", none, some 1, 0, 0⟩ = true ∧
    refDataset ⟨false, 2, 1, 0, 0, [⟨7, some "A", none, some 1, 0, 0⟩]⟩
        "A" [] false true none 7 none 7 =
      ⟨⟨false, 2, 1, 0, 0, [⟨7, some "A", none, some 1, 0, 1⟩]⟩, [], 7,
       .entry false⟩ := by
  constructor
  · exact (C1_matching_rule.1 ⟨7, some "A", none, some 1, 0, 0⟩ "A" [] false 7
      none).mpr ⟨by decide, rfl, Or.inr ⟨rfl, rfl⟩⟩
  · have h := C1_matching_rule.2
      ⟨false, 2, 1, 0, 0, [⟨7, some "A", none, some 1, 0, 0⟩]⟩ "A" [] false
      true none 7 none 7 0 rfl (by decide)
    exact h.trans (by decide)

/-- C2: when a forced Acquire misses and the pool is at capacity, the entry
recycled is the last refCount-zero entry in head-to-tail order (the least
recently used one): no entry strictly after the chosen index has
refCount 0. Its key, owner and handle are cleared, its RAM estimate is
removed from the pool accumulator, and the recycled slot is moved to the
head of the list. If no refCount-zero entry exists, Acquire reports the
pool-exhausted error and returns null, leaving the state unchanged. -/
theorem C2_lru_recycle_and_exhausted :
    (∀ (pid : Int) (l : List CacheEntry) (ram tls : Int)
       (l' : List CacheEntry) (ram' : Int) (evs : List CloseEvent)
       (tls' : Int),
       evictEntryWithZeroRefCount false pid l ram tls =
           some (l', ram', evs, tls') →
       ∃ i, i < l.length ∧ (l.getD i default).refCount = 0 ∧
         (∀ j, i < j → j < l.length → (l.getD j default).refCount ≠ 0) ∧
         l' = clearedEntry (l.getD i default) :: l.eraseIdx i ∧
         (clearedEntry (l.getD i default)).pszFileNameAndOpenOptions = none ∧
         (clearedEntry (l.getD i default)).pszOwner = none ∧
         (clearedEntry (l.getD i default)).poDS = none ∧
         ram' = ram - (l.getD i default).nRAMUsage) ∧
    (∀ (st : PoolState) (f : String) (opts : List String) (sh : Bool)
       (owner : Option String) (pid : Int) (openRes : Option (Nat × Int))
       (tls : Int),
       st.bInDestruction = false →
       firstMatchIdx
         (entryMatches (GetFilenameAndOpenOptions f opts) sh pid owner)
         st.entries = none →
       st.currentSize = st.maxSize →
       (∀ e ∈ st.entries, e.refCount ≠ 0) →
       refDataset st f opts sh true owner pid openRes tls =
         ⟨st, [], tls, .nullExhausted⟩) := by
  constructor
  · intro pid l ram tls l' ram' evs tls' h
    obtain ⟨i, hidx, hlt, hp, hlast, hram, hl', _⟩ :=
      evict_eq_some false pid l ram tls l' ram' evs tls' h
    simp only [Bool.false_eq_true, if_false] at hl'
    refine ⟨i, hlt, (evictPred_false_iff _).mp hp, ?_, hl', rfl, rfl, rfl,
      hram⟩
    intro j hij hjlen hc
    have htrue := (evictPred_false_iff (l.getD j default)).mpr hc
    have hfalse := hlast j hij hjlen
    rw [htrue] at hfalse
    exact absurd hfalse (by simp)
  · intro st f opts sh owner pid openRes tls hdes hidx hcap hall
    rw [refDataset_eq_miss st f opts sh owner pid openRes tls hdes hidx]
    have hnone : acquireSlot st pid tls = none := by
      rw [acquireSlot_eq_none]
      refine ⟨hcap, ?_⟩
      intro e he
      cases hev : evictPred false e
      · rfl
      · exact absurd ((evictPred_false_iff e).mp hev) (hall e he)
    rw [hnone]

/-- Witness for C2: recycling picks the tail-most idle entry of a
three-entry list and moving it to the head, closing its handle; and a full
pool of pinned entries makes a forced Acquire fail with the state
unchanged. -/
theorem C2_lru_recycle_and_exhausted_witness :
    (∃ i, i < ([⟨1, some "P", none, some 5, 0, 1⟩,
                ⟨2, some "Q", none, some 6, 0, 0⟩,
                ⟨3, some "R", none, some 7, 0, 0⟩] :
                List CacheEntry).length ∧
      (([⟨1, some "P", none, some 5, 0, 1⟩, ⟨2, some "Q", none, some 6, 0, 0⟩,
         ⟨3, some "R", none, some 7, 0, 0⟩] :
         List CacheEntry).getD i default).refCount = 0 ∧
      (∀ j, i < j → j < ([⟨1, some "P", none, some 5, 0, 1⟩,
          ⟨2, some "Q", none, some 6, 0, 0⟩,
          ⟨3, some "R", none, some 7, 0, 0⟩] : List CacheEntry).length →
        (([⟨1, some "P", none, some 5, 0, 1⟩,
           ⟨2, some "Q", none, some 6, 0, 0⟩,
           ⟨3, some "R", none, some 7, 0, 0⟩] :
           List CacheEntry).getD j default).refCount ≠ 0) ∧
      ([⟨3, none, none, none, 0, 0⟩, ⟨1, some "P", none, some 5, 0, 1⟩,
        ⟨2, some "Q", none, some 6, 0, 0⟩] : List CacheEntry) =
        clearedEntry (([⟨1, some "P", none, some 5, 0, 1⟩,
          ⟨2, some "Q", none, some 6, 0, 0⟩,
          ⟨3, some "R", none, some 7, 0, 0⟩] :
          List CacheEntry).getD i default) ::
          ([⟨1, some "P", none, some 5, 0, 1⟩,
            ⟨2, some "Q", none, some 6, 0, 0⟩,
            ⟨3, some "R", none, some 7, 0, 0⟩] :
            List CacheEntry).eraseIdx i ∧
      (clearedEntry (([⟨1, some "P", none, some 5, 0, 1⟩,
        ⟨2, some "Q", none, some 6, 0, 0⟩,
        ⟨3, some "R", none, some 7, 0, 0⟩] :
        List CacheEntry).getD i default)).pszFileNameAndOpenOptions = none ∧
      (clearedEntry (([⟨1, some "P", none, some 5, 0, 1⟩,
        ⟨2, some "Q", none, some 6, 0, 0⟩,
        ⟨3, some "R", none, some 7, 0, 0⟩] :
        List CacheEntry).getD i default)).pszOwner = none ∧
      (clearedEntry (([⟨1, some "P", none, some 5, 0, 1⟩,
        ⟨2, some "Q", none, some 6, 0, 0⟩,
        ⟨3, some "R", none, some 7, 0, 0⟩] :
        List CacheEntry).getD i default)).poDS = none ∧
      (0 : Int) = 0 - (([⟨1, some "P", none, some 5, 0, 1⟩,
        ⟨2, some "Q", none, some 6, 0, 0⟩,
        ⟨3, some "R", none, some 7, 0, 0⟩] :
        List CacheEntry).getD i default).nRAMUsage) ∧
    refDataset ⟨false, 2, 2, 0, 0, [⟨1, some "P", none, some 5, 0, 1⟩,
        ⟨2, some "Q", none, some 6, 0, 2⟩]⟩ "C" [] false true none 9 none 9 =
      ⟨⟨false, 2, 2, 0, 0, [⟨1, some "P", none, some 5, 0, 1⟩,
        ⟨2, some "Q", none, some 6, 0, 2⟩]⟩, [], 9, .nullExhausted⟩ :=
  ⟨C2_lru_recycle_and_exhausted.1 9
     [⟨1, some "P", none, some 5, 0, 1⟩, ⟨2, some "Q", none, some 6, 0, 0⟩,
      ⟨3, some "R", none, some 7, 0, 0⟩] 0 9
     [⟨3, none, none, none, 0, 0⟩, ⟨1, some "P", none, some 5, 0, 1⟩,
      ⟨2, some "Q", none, some 6, 0, 0⟩] 0 [⟨7, 3, 3⟩] 9 (by decide),
   C2_lru_recycle_and_exhausted.2
     ⟨false, 2, 2, 0, 0, [⟨1, some "P", none, some 5, 0, 1⟩,
      ⟨2, some "Q", none, some 6, 0, 2⟩]⟩ "C" [] false none 9 none 9 rfl
     (by decide) rfl (by decide)⟩

/-- C8 counterexample: UnrefDataset contains no assertion at all; calling
it on an entry whose refCount is already 0 simply decrements the field to
-1 and returns normally, so a double release is not detected at release
time, contrary to the claim that it is a programmer error detected by an
assertion. -/
theorem C8_counterexample_double_release :
    (unrefDataset ⟨7, some "A", none, some 1, 0, 0⟩).refCount = -1 ∧
    (unrefDataset ⟨7, some "A", none, some 1, 0, 0⟩).poDS = some 1 := by
  decide

/-- C8 as amended: Release (UnrefDataset) only decrements the entry's
refCount; it never closes the handle, never touches the key or the RAM
accounting, and never touches any other entry — but a release on a
refCount-0 entry proceeds undetected, driving the count to -1 (only the
pool-destructor assertion could catch it later). -/
theorem C8_release_only_decrements :
    ∀ (st : PoolState) (i : Nat), i < st.entries.length →
      (unrefAt st i).entries.length = st.entries.length ∧
      ((unrefAt st i).entries.getD i default).refCount =
        (st.entries.getD i default).refCount - 1 ∧
      ((unrefAt st i).entries.getD i default).poDS =
        (st.entries.getD i default).poDS ∧
      ((unrefAt st i).entries.getD i default).pszFileNameAndOpenOptions =
        (st.entries.getD i default).pszFileNameAndOpenOptions ∧
      ((unrefAt st i).entries.getD i default).nRAMUsage =
        (st.entries.getD i default).nRAMUsage ∧
      (∀ j, j ≠ i → (unrefAt st i).entries.getD j default =
        st.entries.getD j default) ∧
      (unrefAt st i).nRAMUsage = st.nRAMUsage := by
  intro st i hi
  refine ⟨List.length_set st.entries i _, ?_, ?_, ?_, ?_, ?_, rfl⟩
  · show ((st.entries.set i _).getD i default).refCount = _
    rw [getD_set_self st.entries i _ default hi]
    rfl
  · show ((st.entries.set i _).getD i default).poDS = _
    rw [getD_set_self st.entries i _ default hi]
    rfl
  · show ((st.entries.set i _).getD i default).pszFileNameAndOpenOptions = _
    rw [getD_set_self st.entries i _ default hi]
    rfl
  · show ((st.entries.set i _).getD i default).nRAMUsage = _
    rw [getD_set_self st.entries i _ default hi]
    rfl
  · intro j hj
    exact getD_set_ne st.entries i j _ default hj

/-- Witness for C8 (amended): releasing an entry with refCount 2 leaves
refCount 1 and all other fields alone. -/
theorem C8_release_only_decrements_witness :
    0 < ([(⟨7, some "A", none, some 1, 0, 2⟩ : CacheEntry)] :
      List CacheEntry).length ∧
    ((unrefAt ⟨false, 2, 1, 0, 0, [⟨7, some "A", none, some 1, 0, 2⟩]⟩
        0).entries.getD 0 default).refCount = 1 :=
  ⟨by decide,
   ((C8_release_only_decrements
      ⟨false, 2, 1, 0, 0, [⟨7, some "A", none, some 1, 0, 2⟩]⟩ 0
      (by decide)).2.1).trans (by decide)⟩

/-- C9: while the thread-local suppression counter
refCountOfDisabledRefCount is non-zero, Ref does not increment the pool
singleton's refCount (though it still lazily constructs the singleton, with
refCount 0) and Unref does not decrement it (and never destroys the
singleton). -/
theorem C9_suppressed_ref_unref :
    ∀ (refCountOfDisabledRefCount : Int) (maxSizeCfg : Nat) (maxRamCfg : Int)
      (s : PoolSingletonState),
      refCountOfDisabledRefCount ≠ 0 →
      poolRef refCountOfDisabledRefCount maxSizeCfg maxRamCfg none =
        some { refCount := 0, pool := emptyPool maxSizeCfg maxRamCfg } ∧
      poolRef refCountOfDisabledRefCount maxSizeCfg maxRamCfg (some s) =
        some s ∧
      poolUnref refCountOfDisabledRefCount (some s) = some s := by
  intro sup mc mr s h
  refine ⟨?_, ?_, ?_⟩
  · simp only [poolRef]
    rw [if_neg h]
  · simp only [poolRef]
    rw [if_neg h]
  · simp only [poolUnref]
    rw [if_neg h]

/-- Witness for C9 with suppression counter 1. -/
theorem C9_suppressed_ref_unref_witness :
    poolRef 1 2 0 none = some { refCount := 0, pool := emptyPool 2 0 } ∧
    poolRef 1 2 0 (some ⟨5, emptyPool 2 0⟩) = some ⟨5, emptyPool 2 0⟩ ∧
    poolUnref 1 (some ⟨5, emptyPool 2 0⟩) = some ⟨5, emptyPool 2 0⟩ :=
  C9_suppressed_ref_unref 1 2 0 ⟨5, emptyPool 2 0⟩ (by decide)

/-- C5 counterexample: the proxy's GetMetadata never consults its cache
before querying the backend; a second call for the same domain returns the
backend's current (changed) data, not the copy stored by the first call, so
the claim that later calls return the stored copy even if the backend would
now return different data is false. -/
theorem C5_counterexample_metadata_not_stable :
    (proxyGetMetadata [] (some (fun _ => some ["AREA=1"])) none).2 =
      some ["AREA=1"] ∧
    (proxyGetMetadata
        (proxyGetMetadata [] (some (fun _ => some ["AREA=1"])) none).1
        (some (fun _ => some ["AREA=2"])) none).2 = some ["AREA=2"] ∧
    (proxyGetMetadata
        (proxyGetMetadata [] (some (fun _ => some ["AREA=1"])) none).1
        (some (fun _ => some ["AREA=2"])) none).2 ≠ some ["AREA=1"] :=
  ⟨rfl, rfl, by decide⟩

/-- C5 as amended: every GetMetadata call (first or later) queries the
backend, deep-copies the backend's current result into the proxy-owned
cache — replacing the entry stored for that domain — and returns the new
copy; the cache keeps returned pointers valid but does not shield callers
from backend changes. The same holds for the (name, domain) item cache of
GetMetadataItem. -/
theorem C5_metadata_refetch_each_call :
    ∀ (cache : List GetMetadataElt)
      (getMeta : Option String → Option (List String)) (d : Option String)
      (icache : List GetMetadataItemElt)
      (getItem : Option String → Option String → Option String)
      (n dj : Option String),
      (proxyGetMetadata cache (some getMeta) d).2 = getMeta d ∧
      metadataSetLookup (proxyGetMetadata cache (some getMeta) d).1 d =
        some (getMeta d) ∧
      (proxyGetMetadataItem icache (some getItem) n dj).2 = getItem n dj ∧
      metadataItemSetLookup
        (proxyGetMetadataItem icache (some getItem) n dj).1 n dj =
        some (getItem n dj) := by
  intro cache getMeta d icache getItem n dj
  refine ⟨rfl, ?_, rfl, ?_⟩
  · unfold proxyGetMetadata metadataSetLookup metadataSetInsert
    rw [List.find?_cons_of_pos _ (by simp)]
    rfl
  · unfold proxyGetMetadataItem metadataItemSetLookup metadataItemSetInsert
    rw [List.find?_cons_of_pos _ (by simp)]
    rfl

/-- After a forced Acquire whose backend open failed, once the caller's
release has run the pool state is: the slot at the head with the installed
key, owner and opener PID, no handle, no RAM estimate, refCount 0. -/
theorem failedSlot_after_release (st : PoolState) (f : String)
    (opts : List String) (sh : Bool) (owner : Option String) (pid tls : Int)
    (st1 : PoolState) (evs1 : List CloseEvent) (tls1 : Int)
    (hdes : st.bInDestruction = false)
    (hidx : firstMatchIdx
      (entryMatches (GetFilenameAndOpenOptions f opts) sh pid owner)
      st.entries = none)
    (hacq : acquireSlot st pid tls = some (st1, evs1, tls1)) :
    ∃ rest,
      refDataset st f opts sh true owner pid none tls =
        ⟨{ st1 with entries :=
             { responsiblePID := pid,
               pszFileNameAndOpenOptions :=
                 some (GetFilenameAndOpenOptions f opts),
               pszOwner := owner, poDS := none, nRAMUsage := 0,
               refCount := 1 } :: rest },
         evs1, tls1, .entry true⟩ ∧
      unrefAt (refDataset st f opts sh true owner pid none tls).st 0 =
        { st1 with entries :=
            { responsiblePID := pid,
              pszFileNameAndOpenOptions :=
                some (GetFilenameAndOpenOptions f opts),
              pszOwner := owner, poDS := none, nRAMUsage := 0,
              refCount := 0 } :: rest } ∧
      st1.bInDestruction = st.bInDestruction := by
  obtain ⟨rest, heq, hdes1⟩ := refDataset_openFail_shape st f opts sh owner
    pid tls st1 evs1 tls1 hdes hidx hacq
  refine ⟨rest, heq, ?_, hdes1⟩
  rw [heq]
  show unrefAt { st1 with entries :=
      ({ responsiblePID := pid,
         pszFileNameAndOpenOptions := some (GetFilenameAndOpenOptions f opts),
         pszOwner := owner, poDS := none, nRAMUsage := 0,
         refCount := 1 } : CacheEntry) :: rest } 0 = _
  unfold unrefAt
  simp [unrefDataset]

/-- C4 counterexample: a forced Acquire on an empty pool whose backend open
fails leaves a slot which, after the caller's release, has handle none and
refCount 0 — but its key is still the installed "A", not none as the claim
states. -/
theorem C4_counterexample_key_not_cleared :
    ((unrefAt (refDataset (emptyPool 2 0) "A" [] false true none 7 none 7).st
        0).entries.getD 0 default).pszFileNameAndOpenOptions = some "A" ∧
    ((unrefAt (refDataset (emptyPool 2 0) "A" [] false true none 7 none 7).st
        0).entries.getD 0 default).poDS = none ∧
    ((unrefAt (refDataset (emptyPool 2 0) "A" [] false true none 7 none 7).st
        0).entries.getD 0 default).refCount = 0 ∧
    ((unrefAt (refDataset (emptyPool 2 0) "A" [] false true none 7 none 7).st
        0).entries.getD 0 default).pszFileNameAndOpenOptions ≠ none := by
  decide

/-- C4 as amended: when the backend open fails during a forced Acquire, the
slot allocated for the attempt is left in place at the head of the LRU list
with handle = none, no RAM estimate, refCount = 0 once the caller's release
has run, and the key still set to the installed descriptor-plus-options
string (it is not cleared); the slot is reusable for a later open — it
passes the recycling filter. -/
theorem C4_failed_open_slot :
    ∀ (st : PoolState) (f : String) (opts : List String) (sh : Bool)
      (owner : Option String) (pid tls : Int) (st1 : PoolState)
      (evs1 : List CloseEvent) (tls1 : Int),
      st.bInDestruction = false →
      firstMatchIdx
        (entryMatches (GetFilenameAndOpenOptions f opts) sh pid owner)
        st.entries = none →
      acquireSlot st pid tls = some (st1, evs1, tls1) →
      ∃ rest,
        (refDataset st f opts sh true owner pid none tls).st.entries =
          { responsiblePID := pid,
            pszFileNameAndOpenOptions :=
              some (GetFilenameAndOpenOptions f opts),
            pszOwner := owner, poDS := none, nRAMUsage := 0,
            refCount := 1 } :: rest ∧
        (unrefAt (refDataset st f opts sh true owner pid none tls).st
            0).entries =
          { responsiblePID := pid,
            pszFileNameAndOpenOptions :=
              some (GetFilenameAndOpenOptions f opts),
            pszOwner := owner, poDS := none, nRAMUsage := 0,
            refCount := 0 } :: rest ∧
        evictPred false
          { responsiblePID := pid,
            pszFileNameAndOpenOptions :=
              some (GetFilenameAndOpenOptions f opts),
            pszOwner := owner, poDS := none, nRAMUsage := 0,
            refCount := 0 } = true := by
  intro st f opts sh owner pid tls st1 evs1 tls1 hdes hidx hacq
  obtain ⟨rest, heq, hrel, _⟩ := failedSlot_after_release st f opts sh owner
    pid tls st1 evs1 tls1 hdes hidx hacq
  refine ⟨rest, ?_, ?_, by simp [evictPred]⟩
  · rw [heq]
  · rw [hrel]

/-- Witness for C4 (amended) on an empty pool of capacity 2. -/
theorem C4_failed_open_slot_witness :
    ∃ rest,
      (refDataset (emptyPool 2 0) "A" [] false true none 7 none 7).st.entries =
        { responsiblePID := 7,
          pszFileNameAndOpenOptions :=
            some (GetFilenameAndOpenOptions "A" []),
          pszOwner := none, poDS := none, nRAMUsage := 0,
          refCount := 1 } :: rest ∧
      (unrefAt (refDataset (emptyPool 2 0) "A" [] false true none 7 none 7).st
          0).entries =
        { responsiblePID := 7,
          pszFileNameAndOpenOptions :=
            some (GetFilenameAndOpenOptions "A" []),
          pszOwner := none, poDS := none, nRAMUsage := 0,
          refCount := 0 } :: rest ∧
      evictPred false
        { responsiblePID := 7,
          pszFileNameAndOpenOptions :=
            some (GetFilenameAndOpenOptions "A" []),
          pszOwner := none, poDS := none, nRAMUsage := 0,
          refCount := 0 } = true :=
  C4_failed_open_slot (emptyPool 2 0) "A" [] false none 7 7
    ⟨false, 2, 1, 0, 0, [⟨0, none, none, none, 0, 0⟩]⟩ [] 7 rfl (by decide)
    (by decide)

/-- C10: after a forced Acquire whose backend open failed, the slot keeps
its installed key with handle = none, and once the caller releases it its
refCount is 0; a subsequent Acquire with the same key and shared = false
(any owner, any thread, any force flag) matches this failed slot as the
first entry scanned, increments its refCount to 1 and returns it without
invoking the backend opener (didOpen = false, no closes), so the caller
observes a missing handle instead of a new open attempt. -/
theorem C10_failed_slot_rematch :
    ∀ (st : PoolState) (f : String) (opts : List String) (sh : Bool)
      (owner : Option String) (pid tls : Int) (st1 : PoolState)
      (evs1 : List CloseEvent) (tls1 : Int) (force2 : Bool)
      (owner2 : Option String) (pid2 : Int) (openRes2 : Option (Nat × Int))
      (tls2 : Int),
      st.bInDestruction = false →
      firstMatchIdx
        (entryMatches (GetFilenameAndOpenOptions f opts) sh pid owner)
        st.entries = none →
      acquireSlot st pid tls = some (st1, evs1, tls1) →
      ∃ rest slot,
        (unrefAt (refDataset st f opts sh true owner pid none tls).st
            0).entries = slot :: rest ∧
        slot.poDS = none ∧
        slot.refCount = 0 ∧
        slot.pszFileNameAndOpenOptions =
          some (GetFilenameAndOpenOptions f opts) ∧
        refDataset
            (unrefAt (refDataset st f opts sh true owner pid none tls).st 0)
            f opts false force2 owner2 pid2 openRes2 tls2 =
          ⟨{ (unrefAt (refDataset st f opts sh true owner pid none tls).st 0)
               with entries :=
                 { slot with refCount := slot.refCount + 1 } :: rest },
           [], tls2, .entry false⟩ ∧
        ({ slot with refCount := slot.refCount + 1 } : CacheEntry).refCount =
          1 ∧
        ({ slot with refCount := slot.refCount + 1 } : CacheEntry).poDS =
          none := by
  intro st f opts sh owner pid tls st1 evs1 tls1 force2 owner2 pid2 openRes2
    tls2 hdes hidx hacq
  obtain ⟨rest, heq, hrel, hdes1⟩ := failedSlot_after_release st f opts sh
    owner pid tls st1 evs1 tls1 hdes hidx hacq
  refine ⟨rest,
    { responsiblePID := pid,
      pszFileNameAndOpenOptions := some (GetFilenameAndOpenOptions f opts),
      pszOwner := owner, poDS := none, nRAMUsage := 0, refCount := 0 },
    ?_, rfl, rfl, rfl, ?_, rfl, rfl⟩
  · rw [hrel]
  · rw [hrel]
    have hdes2 : ({ st1 with entries :=
        ({ responsiblePID := pid,
           pszFileNameAndOpenOptions :=
             some (GetFilenameAndOpenOptions f opts),
           pszOwner := owner, poDS := none, nRAMUsage := 0,
           refCount := 0 } : CacheEntry) :: rest } :
        PoolState).bInDestruction = false := hdes1.trans hdes
    have hmatch : entryMatches (GetFilenameAndOpenOptions f opts) false pid2
        owner2
        { responsiblePID := pid,
          pszFileNameAndOpenOptions :=
            some (GetFilenameAndOpenOptions f opts),
          pszOwner := owner, poDS := none, nRAMUsage := 0,
          refCount := 0 } = true :=
      (entryMatches_iff (GetFilenameAndOpenOptions f opts) false pid2 owner2
        _).mpr ⟨le_refl 0, rfl, Or.inr ⟨rfl, rfl⟩⟩
    have hidx2 : firstMatchIdx
        (entryMatches (GetFilenameAndOpenOptions f opts) false pid2 owner2)
        (({ responsiblePID := pid,
            pszFileNameAndOpenOptions :=
              some (GetFilenameAndOpenOptions f opts),
            pszOwner := owner, poDS := none, nRAMUsage := 0,
            refCount := 0 } : CacheEntry) :: rest) = some 0 := by
      unfold firstMatchIdx
      rw [if_pos hmatch]
    exact refDataset_eq_hit _ f opts false force2 owner2 pid2 openRes2 tls2 0
      hdes2 hidx2

/-- Witness for C10: the failed "A" slot on an empty pool is rematched by a
later exclusive Acquire for "A" from another thread without reopening. -/
theorem C10_failed_slot_rematch_witness :
    ∃ rest slot,
      (unrefAt (refDataset (emptyPool 2 0) "A" [] false true none 7 none 7).st
          0).entries = slot :: rest ∧
      slot.poDS = none ∧
      slot.refCount = 0 ∧
      slot.pszFileNameAndOpenOptions =
        some (GetFilenameAndOpenOptions "A" []) ∧
      refDataset
          (unrefAt (refDataset (emptyPool 2 0) "A" [] false true none 7 none
            7).st 0) "A" [] false true none 9 (some (5, 10)) 9 =
        ⟨{ (unrefAt (refDataset (emptyPool 2 0) "A" [] false true none 7 none
             7).st 0) with entries :=
               { slot with refCount := slot.refCount + 1 } :: rest },
         [], 9, .entry false⟩ ∧
      ({ slot with refCount := slot.refCount + 1 } : CacheEntry).refCount =
        1 ∧
      ({ slot with refCount := slot.refCount + 1 } : CacheEntry).poDS =
        none :=
  C10_failed_slot_rematch (emptyPool 2 0) "A" [] false none 7 7
    ⟨false, 2, 1, 0, 0, [⟨0, none, none, none, 0, 0⟩]⟩ [] 7 true none 9
    (some (5, 10)) 9 rfl (by decide) (by decide)

/-- C6: the RAM accounting invariant — the pool accumulator nRAMUsage
equals the sum of the per-entry RAM estimates, estimates are non-negative,
and a closed entry carries estimate 0 — is preserved by every pool
operation: Acquire (_RefDataset, on every path: hit, failed open,
successful open with RAM-pressure eviction, recycling, exhaustion),
Release (UnrefDataset), CloseDatasetIfZeroRefCount, and eviction itself:
a successful open adds the new entry's estimate to both sides and every
close subtracts the closed entry's estimate and zeroes it. -/
theorem C6_ram_accounting :
    ∀ (st : PoolState) (f f2 : String) (opts opts2 : List String)
      (sh force : Bool) (owner owner2 : Option String) (pid : Int)
      (openRes : Option (Nat × Int)) (tls : Int) (i : Nat) (b : Bool)
      (l' : List CacheEntry) (ram' : Int) (evs : List CloseEvent)
      (tls' : Int),
      RamWF st →
      RamWF (refDataset st f opts sh force owner pid openRes tls).st ∧
      RamWF (unrefAt st i) ∧
      RamWF (closeDatasetIfZeroRefCount st f2 opts2 owner2 tls).1 ∧
      (evictEntryWithZeroRefCount b pid st.entries st.nRAMUsage tls =
        some (l', ram', evs, tls') → RamInv l' ram') := by
  intro st f f2 opts opts2 sh force owner owner2 pid openRes tls i b l' ram'
    evs tls' h
  exact ⟨refDataset_RamWF st f opts sh force owner pid openRes tls h,
    unrefAt_RamWF st i h,
    (closeDatasetIfZeroRefCount_spec st f2 opts2 owner2 tls).1 h,
    fun hev => evict_RamInv b pid st.entries st.nRAMUsage tls l' ram' evs
      tls' h hev⟩

/-- Witness for C6 on a concrete two-entry pool holding 60 bytes: a forced
Acquire that opens 50 more bytes, a release, a CloseIfIdle, and a direct
RAM-pressure eviction all preserve the accounting. -/
theorem C6_ram_accounting_witness :
    RamWF (refDataset ⟨false, 10, 2, 100, 60,
        [⟨7, some "A", none, some 1, 60, 0⟩,
         ⟨8, some "B", none, none, 0, 1⟩]⟩ "C" [] false true none 9
        (some (2, 50)) 9).st ∧
    RamWF (unrefAt ⟨false, 10, 2, 100, 60,
        [⟨7, some "A", none, some 1, 60, 0⟩,
         ⟨8, some "B", none, none, 0, 1⟩]⟩ 1) ∧
    RamWF (closeDatasetIfZeroRefCount ⟨false, 10, 2, 100, 60,
        [⟨7, some "A", none, some 1, 60, 0⟩,
         ⟨8, some "B", none, none, 0, 1⟩]⟩ "A" [] none 9).1 ∧
    RamInv [⟨7, none, none, none, 0, 0⟩, ⟨8, some "B", none, none, 0, 1⟩]
      0 := by
  have h := C6_ram_accounting ⟨false, 10, 2, 100, 60,
    [⟨7, some "A", none, some 1, 60, 0⟩, ⟨8, some "B", none, none, 0, 1⟩]⟩
    "C" "A" [] [] false true none none 9 (some (2, 50)) 9 1 true
    [⟨7, none, none, none, 0, 0⟩, ⟨8, some "B", none, none, 0, 1⟩] 0
    [⟨1, 7, 7⟩] 9 (by unfold RamWF RamInv entryRamOK; decide)
  exact ⟨h.1, h.2.1, h.2.2.1, h.2.2.2 (by decide)⟩

/-- C7: whenever the pool closes a cached backend handle — during eviction
(capacity recycling or RAM pressure, inside _RefDataset) or during an
explicit CloseDatasetIfZeroRefCount — the close is recorded under the
entry's stored opener PID (the source first sets the thread-local
responsible PID to the entry's recorded PID, runs GDALClose under it, and
then restores the previously saved PID): every close event's closerPID
equals its openerPID, and the thread-local PID after the operation equals
the one saved before it. -/
theorem C7_close_affinity :
    ∀ (b : Bool) (pid : Int) (l : List CacheEntry) (ram tls : Int)
      (l' : List CacheEntry) (ram' : Int) (evs : List CloseEvent)
      (tls' : Int) (st st2 : PoolState) (f f2 : String)
      (opts opts2 : List String) (sh force : Bool)
      (owner owner2 : Option String) (openRes : Option (Nat × Int)),
      (evictEntryWithZeroRefCount b pid l ram tls =
          some (l', ram', evs, tls') →
        (∀ ev ∈ evs, ev.closerPID = ev.openerPID) ∧
        (tls = pid → tls' = pid)) ∧
      (∀ ev ∈ (closeDatasetIfZeroRefCount st f opts owner tls).2.1,
        ev.closerPID = ev.openerPID) ∧
      (closeDatasetIfZeroRefCount st f opts owner tls).2.2 = tls ∧
      (∀ ev ∈ (refDataset st2 f2 opts2 sh force owner2 pid openRes
          tls).closes, ev.closerPID = ev.openerPID) ∧
      (tls = pid →
        (refDataset st2 f2 opts2 sh force owner2 pid openRes tls).tls =
          tls) := by
  intro b pid l ram tls l' ram' evs tls' st st2 f f2 opts opts2 sh force
    owner owner2 openRes
  exact ⟨fun hev => evict_closes b pid l ram tls l' ram' evs tls' hev,
    (closeDatasetIfZeroRefCount_spec st f opts owner tls).2.1,
    (closeDatasetIfZeroRefCount_spec st f opts owner tls).2.2,
    (refDataset_closes st2 f2 opts2 sh force owner2 pid openRes tls).1,
    fun htls =>
      ((refDataset_closes st2 f2 opts2 sh force owner2 pid openRes tls).2
        htls).trans htls.symm⟩

/-- Witness for C7: a RAM-pressure eviction, an explicit CloseIfIdle of
"A", and a forced Acquire of "B" that recycles "A"'s slot all close the
handle opened by thread 7 under responsible PID 7, restoring PID 9. -/
theorem C7_close_affinity_witness :
    ((∀ ev ∈ ([⟨1, 7, 7⟩] : List CloseEvent),
        ev.closerPID = ev.openerPID) ∧
      ((9 : Int) = 9 → (9 : Int) = 9)) ∧
    (∀ ev ∈ (closeDatasetIfZeroRefCount
        ⟨false, 10, 1, 0, 0, [⟨7, some "A", none, some 1, 0, 0⟩]⟩ "A" [] none
        9).2.1, ev.closerPID = ev.openerPID) ∧
    (closeDatasetIfZeroRefCount
        ⟨false, 10, 1, 0, 0, [⟨7, some "A", none, some 1, 0, 0⟩]⟩ "A" [] none
        9).2.2 = 9 ∧
    (∀ ev ∈ (refDataset
        ⟨false, 1, 1, 0, 0, [⟨7, some "A", none, some 1, 0, 0⟩]⟩ "B" [] false
        true none 9 none 9).closes, ev.closerPID = ev.openerPID) ∧
    ((9 : Int) = 9 →
      (refDataset ⟨false, 1, 1, 0, 0, [⟨7, some "A", none, some 1, 0, 0⟩]⟩
        "B" [] false true none 9 none 9).tls = 9) := by
  have h := C7_close_affinity true 9 [⟨7, some "A", none, some 1, 60, 0⟩] 60
    9 [⟨7, none, none, none, 0, 0⟩] 0 [⟨1, 7, 7⟩] 9
    ⟨false, 10, 1, 0, 0, [⟨7, some "A", none, some 1, 0, 0⟩]⟩
    ⟨false, 1, 1, 0, 0, [⟨7, some "A", none, some 1, 0, 0⟩]⟩ "A" "B" [] []
    false true none none none
  exact ⟨h.1 (by decide), h.2.1, h.2.2.1, h.2.2.2.1, h.2.2.2.2⟩

/-- After a successful backend open into the head slot, with a positive RAM
budget and a positive estimate, the RAM-pressure loop runs: the just-opened
entry stays untouched at the head, and the loop stops only once the
accumulator is within budget or no other idle positive-RAM entry remains. -/
theorem openIntoSlot_ram_pressure (st1 : PoolState) (k : String)
    (owner : Option String) (pid : Int) (h0 : Nat) (ramEst : Int)
    (evs1 : List CloseEvent) (tls1 : Int) (c0 : CacheEntry)
    (rest : List CacheEntry)
    (hst1 : st1.entries = c0 :: rest) (hc0ram : c0.nRAMUsage = 0)
    (hwf1 : RamWF st1) (hmax : 0 < st1.nMaxRAMUsage) (hpos : 0 < ramEst) :
    ∃ tl,
      (openIntoSlot st1 k owner pid (some (h0, ramEst)) evs1
          tls1).st.entries =
        ({ responsiblePID := pid, pszFileNameAndOpenOptions := some k,
           pszOwner := owner, poDS := some h0, nRAMUsage := ramEst,
           refCount := 1 } : CacheEntry) :: tl ∧
      ((openIntoSlot st1 k owner pid (some (h0, ramEst)) evs1
          tls1).st.nRAMUsage ≤ st1.nMaxRAMUsage ∨
       ∀ e ∈ tl, ¬(e.refCount = 0 ∧ 0 < e.nRAMUsage)) := by
  have hmr : max 0 ramEst = ramEst := max_eq_right (le_of_lt hpos)
  rw [openIntoSlot_success st1 k owner pid h0 ramEst evs1 tls1 c0 rest hst1,
    hmr, if_pos ⟨hmax, hpos⟩]
  have hOSent : (openedState st1 k owner pid h0 ramEst rest).entries =
      ({ responsiblePID := pid, pszFileNameAndOpenOptions := some k,
         pszOwner := owner, poDS := some h0, nRAMUsage := ramEst,
         refCount := 1 } : CacheEntry) :: rest := by
    show ({ responsiblePID := pid, pszFileNameAndOpenOptions := some k,
            pszOwner := owner, poDS := some h0, nRAMUsage := max 0 ramEst,
            refCount := 1 } : CacheEntry) :: rest = _
    rw [hmr]
  have hEpred : evictPred true
      ({ responsiblePID := pid, pszFileNameAndOpenOptions := some k,
         pszOwner := owner, poDS := some h0, nRAMUsage := ramEst,
         refCount := 1 } : CacheEntry) = false := by
    simp [evictPred]
  obtain ⟨tl', htl'⟩ := ramEvictLoop_head pid ramEst (rest.length + 1)
    (openedState st1 k owner pid h0 ramEst rest) tls1 _ rest hOSent hEpred
  refine ⟨tl', htl', ?_⟩
  have hfuel : countPos (openedState st1 k owner pid h0 ramEst rest).entries ≤
      rest.length + 1 := by
    calc countPos (openedState st1 k owner pid h0 ramEst rest).entries ≤
          (openedState st1 k owner pid h0 ramEst rest).entries.length :=
        countPos_le_length _
      _ = rest.length + 1 := by rw [hOSent]; rfl
  have hpost := ramEvictLoop_post pid ramEst (rest.length + 1)
    (openedState st1 k owner pid h0 ramEst rest) tls1 hfuel
  have hframe := ramEvictLoop_frame pid ramEst (rest.length + 1)
    (openedState st1 k owner pid h0 ramEst rest) tls1
  obtain ⟨hsum1, hok1⟩ := hwf1
  have hsum1' : st1.nRAMUsage = sumRAM rest := by
    rw [hst1, sumRAM_cons, hc0ram] at hsum1
    omega
  have hOSwf : RamWF (openedState st1 k owner pid h0 ramEst rest) := by
    constructor
    · show st1.nRAMUsage + max 0 ramEst = sumRAM (_ :: rest)
      rw [sumRAM_cons]
      show st1.nRAMUsage + max 0 ramEst = max 0 ramEst + sumRAM rest
      rw [hsum1']
      ring
    · intro e he
      rw [hOSent] at he
      rcases List.mem_cons.mp he with rfl | he
      · refine ⟨le_of_lt hpos, ?_⟩
        intro hcon
        simp at hcon
      · exact hok1 e (by rw [hst1]; exact List.mem_cons_of_mem _ he)
  have hloopwf := ramEvictLoop_RamInv pid ramEst (rest.length + 1)
    (openedState st1 k owner pid h0 ramEst rest) tls1 hOSwf
  rcases hpost with hle | heq | hall
  · left
    show (ramEvictLoop (rest.length + 1) pid ramEst
      (openedState st1 k owner pid h0 ramEst rest) tls1).1.nRAMUsage ≤
      st1.nMaxRAMUsage
    calc (ramEvictLoop (rest.length + 1) pid ramEst
          (openedState st1 k owner pid h0 ramEst rest) tls1).1.nRAMUsage ≤
        (ramEvictLoop (rest.length + 1) pid ramEst
          (openedState st1 k owner pid h0 ramEst rest)
          tls1).1.nMaxRAMUsage := hle
      _ = st1.nMaxRAMUsage := hframe.2.2.2.1
  · right
    intro e he hcon
    obtain ⟨hsumo, hoko⟩ := hloopwf
    rw [htl', sumRAM_cons] at hsumo
    have hE :
        ({ responsiblePID := pid, pszFileNameAndOpenOptions := some k,
           pszOwner := owner, poDS := some h0, nRAMUsage := ramEst,
           refCount := 1 } : CacheEntry).nRAMUsage = ramEst := rfl
    rw [hE] at hsumo
    have htl0 : sumRAM tl' = 0 := by omega
    have hnn : ∀ e' ∈ tl', 0 ≤ e'.nRAMUsage := by
      intro e' he'
      exact (hoko e' (by rw [htl']; exact List.mem_cons_of_mem _ he')).1
    have hz := sumRAM_eq_zero tl' hnn htl0 e he
    omega
  · right
    intro e he hcon
    have hf := hall e (by rw [htl']; exact List.mem_cons_of_mem _ he)
    have ht := (evictPred_true_iff e).mpr hcon
    rw [ht] at hf
    exact absurd hf (by simp)

/-- C3: a RAM-pressure eviction step closes the handle of the least
recently used refCount-zero entry with a positive RAM estimate (the last
such entry in head-to-tail order), subtracts that estimate from the pool
accumulator and leaves the closed entry's slot in the LRU list (the list
length is unchanged and the entry is updated in place, not moved). After a
successful backend open of an entry e with a positive RAM budget and a
positive estimate, the loop repeats this until the accumulator is within
the budget or no such entry other than e remains; e itself, sitting at the
head with refCount 1, is never the one closed. -/
theorem C3_ram_pressure :
    (∀ (pid : Int) (l : List CacheEntry) (ram tls : Int)
       (l' : List CacheEntry) (ram' : Int) (evs : List CloseEvent)
       (tls' : Int),
       evictEntryWithZeroRefCount true pid l ram tls =
           some (l', ram', evs, tls') →
       ∃ i, i < l.length ∧ (l.getD i default).refCount = 0 ∧
         0 < (l.getD i default).nRAMUsage ∧
         (∀ j, i < j → j < l.length →
           ¬((l.getD j default).refCount = 0 ∧
             0 < (l.getD j default).nRAMUsage)) ∧
         l' = l.set i (clearedEntry (l.getD i default)) ∧
         l'.length = l.length ∧
         ram' = ram - (l.getD i default).nRAMUsage) ∧
    (∀ (st : PoolState) (f : String) (opts : List String) (sh : Bool)
       (owner : Option String) (pid : Int) (h0 : Nat) (ramEst : Int)
       (tls : Int) (st1 : PoolState) (evs1 : List CloseEvent) (tls1 : Int),
       RamWF st →
       st.bInDestruction = false →
       firstMatchIdx
         (entryMatches (GetFilenameAndOpenOptions f opts) sh pid owner)
         st.entries = none →
       acquireSlot st pid tls = some (st1, evs1, tls1) →
       0 < st.nMaxRAMUsage →
       0 < ramEst →
       ∃ tl,
         (refDataset st f opts sh true owner pid (some (h0, ramEst))
             tls).st.entries =
           ({ responsiblePID := pid,
              pszFileNameAndOpenOptions :=
                some (GetFilenameAndOpenOptions f opts),
              pszOwner := owner, poDS := some h0, nRAMUsage := ramEst,
              refCount := 1 } : CacheEntry) :: tl ∧
         ((refDataset st f opts sh true owner pid (some (h0, ramEst))
             tls).st.nRAMUsage ≤ st.nMaxRAMUsage ∨
          ∀ e ∈ tl, ¬(e.refCount = 0 ∧ 0 < e.nRAMUsage))) := by
  constructor
  · intro pid l ram tls l' ram' evs tls' h
    obtain ⟨i, hidx, hlt, hp, hlast, hram, hl', _⟩ :=
      evict_eq_some true pid l ram tls l' ram' evs tls' h
    simp only [if_pos] at hl'
    have hp' := (evictPred_true_iff _).mp hp
    refine ⟨i, hlt, hp'.1, hp'.2, ?_, hl',
      by rw [hl']; exact List.length_set l i _, hram⟩
    intro j hij hjlen hc
    have ht := (evictPred_true_iff (l.getD j default)).mpr hc
    have hf := hlast j hij hjlen
    rw [ht] at hf
    exact absurd hf (by simp)
  · intro st f opts sh owner pid h0 ramEst tls st1 evs1 tls1 hwf hdes hidx
      hacq hmax hpos
    obtain ⟨⟨c0, rest, hst1, hc0ram, _, _⟩, _, _, hnmax1, hwf1, _, _⟩ :=
      acquireSlot_spec st pid tls st1 evs1 tls1 hacq
    have hmax1 : 0 < st1.nMaxRAMUsage := by
      rw [hnmax1]
      exact hmax
    obtain ⟨tl, h1, h2⟩ := openIntoSlot_ram_pressure st1
      (GetFilenameAndOpenOptions f opts) owner pid h0 ramEst evs1 tls1 c0
      rest hst1 hc0ram (hwf1 hwf) hmax1 hpos
    rw [refDataset_eq_miss st f opts sh owner pid (some (h0, ramEst)) tls
      hdes hidx, hacq]
    refine ⟨tl, h1, ?_⟩
    rcases h2 with h2 | h2
    · left
      rw [← hnmax1]
      exact h2
    · right
      exact h2

/-- Witness for C3 (scenario S4 of the specification): the pool holds "A"
with 60 bytes under a 100-byte budget; a forced Acquire of "B" reporting 60
bytes pushes the accumulator to 120, and the loop closes "A" (idle, 60
bytes), leaving "B" open at the head; and the direct eviction step picks
"A" as the LRU positive-RAM idle entry. -/
theorem C3_ram_pressure_witness :
    (∃ i, i < ([⟨9, some "B", none, some 2, 60, 1⟩,
        ⟨7, some "A", none, some 1, 60, 0⟩] : List CacheEntry).length ∧
      (([⟨9, some "B", none, some 2, 60, 1⟩,
         ⟨7, some "A", none, some 1, 60, 0⟩] :
         List CacheEntry).getD i default).refCount = 0 ∧
      0 < (([⟨9, some "B", none, some 2, 60, 1⟩,
         ⟨7, some "A", none, some 1, 60, 0⟩] :
         List CacheEntry).getD i default).nRAMUsage ∧
      (∀ j, i < j → j < ([⟨9, some "B", none, some 2, 60, 1⟩,
          ⟨7, some "A", none, some 1, 60, 0⟩] : List CacheEntry).length →
        ¬((([⟨9, some "B", none, some 2, 60, 1⟩,
            ⟨7, some "A", none, some 1, 60, 0⟩] :
            List CacheEntry).getD j default).refCount = 0 ∧
          0 < (([⟨9, some "B", none, some 2, 60, 1⟩,
            ⟨7, some "A", none, some 1, 60, 0⟩] :
            List CacheEntry).getD j default).nRAMUsage)) ∧
      ([⟨9, some "B", none, some 2, 60, 1⟩, ⟨7, none, none, none, 0, 0⟩] :
        List CacheEntry) =
        ([⟨9, some "B", none, some 2, 60, 1⟩,
          ⟨7, some "A", none, some 1, 60, 0⟩] : List CacheEntry).set i
          (clearedEntry (([⟨9, some "B", none, some 2, 60, 1⟩,
            ⟨7, some "A", none, some 1, 60, 0⟩] :
            List CacheEntry).getD i default)) ∧
      ([⟨9, some "B", none, some 2, 60, 1⟩, ⟨7, none, none, none, 0, 0⟩] :
        List CacheEntry).length =
        ([⟨9, some "B", none, some 2, 60, 1⟩,
          ⟨7, some "A", none, some 1, 60, 0⟩] : List CacheEntry).length ∧
      (60 : Int) = 120 - (([⟨9, some "B", none, some 2, 60, 1⟩,
        ⟨7, some "A", none, some 1, 60, 0⟩] :
        List CacheEntry).getD i default).nRAMUsage) ∧
    (∃ tl,
      (refDataset ⟨false, 10, 1, 100, 60,
          [⟨7, some "A", none, some 1, 60, 0⟩]⟩ "B" [] false true none 9
          (some (2, 60)) 9).st.entries =
        ({ responsiblePID := 9,
           pszFileNameAndOpenOptions :=
             some (GetFilenameAndOpenOptions "B" []),
           pszOwner := none, poDS := some 2, nRAMUsage := 60,
           refCount := 1 } : CacheEntry) :: tl ∧
      ((refDataset ⟨false, 10, 1, 100, 60,
          [⟨7, some "A", none, some 1, 60, 0⟩]⟩ "B" [] false true none 9
          (some (2, 60)) 9).st.nRAMUsage ≤ 100 ∨
       ∀ e ∈ tl, ¬(e.refCount = 0 ∧ 0 < e.nRAMUsage))) :=
  ⟨C3_ram_pressure.1 9
     [⟨9, some "B", none, some 2, 60, 1⟩, ⟨7, some "A", none, some 1, 60, 0⟩]
     120 9
     [⟨9, some "B", none, some 2, 60, 1⟩, ⟨7, none, none, none, 0, 0⟩] 60
     [⟨1, 7, 7⟩] 9 (by decide),
   C3_ram_pressure.2 ⟨false, 10, 1, 100, 60,
     [⟨7, some "A", none, some 1, 60, 0⟩]⟩ "B" [] false none 9 2 60 9
     ⟨false, 10, 2, 100, 60, [⟨0, none, none, none, 0, 0⟩,
      ⟨7, some "A", none, some 1, 60, 0⟩]⟩ [] 9
     (by unfold RamWF RamInv entryRamOK; decide) rfl (by decide) (by decide)
     (by decide) (by decide)⟩
